import Mathlib

/-!
Verification of the title-matching and derivation core of `build_careers.py`
(a script that joins two labor-statistics sources by occupation title and
emits one career record per configured target title).

The Python source is shallowly embedded: strings are `String` (lists of
characters), Python `None` is `Option.none`, numeric wage cells are `Rat`,
pandas missing values are a dedicated `Cell.na` constructor, and code that
can raise returns `Except String`.  Python's `str.lower` is modelled on the
ASCII range (the only range exercised by the data and the claims), and
whitespace is the six ASCII whitespace characters matched by `\s` / `strip`.
-/

/-- The six ASCII whitespace characters recognised by Python's `\s` regex
class and by `str.strip` (space, tab, newline, carriage return, vertical
tab, form feed). -/
def pyIsSpace (c : Char) : Bool :=
  c.toNat = 32 || c.toNat = 9 || c.toNat = 10 || c.toNat = 13 ||
    c.toNat = 11 || c.toNat = 12

/-- Python `str.lower`, character by character, on the ASCII range:
uppercase latin letters shift down into lowercase, everything else is
unchanged. -/
def lowerChar (c : Char) : Char :=
  if 65 ≤ c.toNat ∧ c.toNat ≤ 90 then Char.ofNat (c.toNat + 32) else c

/-- Python `str.lower` on whole strings. -/
def lowerStr (s : String) : String := ⟨s.data.map lowerChar⟩

/-- Drop trailing whitespace (the right half of Python `str.strip`). -/
def dropTrailWS : List Char → List Char
  | [] => []
  | c :: cs =>
    match dropTrailWS cs with
    | [] => if pyIsSpace c then [] else [c]
    | r => c :: r

/-- Python `str.strip` on character lists: drop leading and trailing
whitespace. -/
def stripChars (l : List Char) : List Char :=
  dropTrailWS (l.dropWhile pyIsSpace)

/-- Python `str.strip` on strings. -/
def pyStrip (s : String) : String := ⟨stripChars s.data⟩

/-- The state-passing core of `re.sub(r"\s+", " ", ·)`: replace every
maximal run of whitespace by a single space.  The boolean records whether
the previously emitted character came from a whitespace run. -/
def collapseAux : Bool → List Char → List Char
  | _, [] => []
  | inRun, c :: cs =>
    if pyIsSpace c then
      if inRun then collapseAux true cs else ' ' :: collapseAux true cs
    else c :: collapseAux false cs

/-- `re.sub(r"\s+", " ", s.strip())`, as applied by the source to summaries
and education fields. -/
def squeeze (s : String) : String := ⟨collapseAux false (stripChars s.data)⟩

/-- `norm` from `build_careers.py`:
`re.sub(r"\s+", " ", s.lower().strip())`. -/
def norm (s : String) : String :=
  ⟨collapseAux false (stripChars (s.data.map lowerChar))⟩

/-- Substring containment on character lists (Python's `needle in hay`). -/
def containsSub (hay needle : List Char) : Bool :=
  needle.isPrefixOf hay ||
    match hay with
    | [] => false
    | _ :: t => containsSub t needle

/-- Python's `needle in hay` on strings. -/
def pyIn (needle hay : String) : Bool := containsSub hay.data needle.data

/-- Python's `a or d` for an optional string `a` and a string default `d`:
`None` and the empty string are falsy. -/
def pyOrDefault (a : Option String) (d : String) : String :=
  match a with
  | none => d
  | some s => if s = "" then d else s

/-- Association-list model of a Python `dict` with string keys.
Assignment to an existing key replaces the stored value. -/
abbrev Dict (α : Type) : Type := List (String × α)

/-- `d[k] = v` on a Python dict: the key holds exactly the new value
afterwards. -/
def dinsert {α : Type} (d : Dict α) (k : String) (v : α) : Dict α :=
  (List.filter (fun p => !(p.1 == k)) d) ++ [(k, v)]

/-- `d.get(k)` on a Python dict. -/
def dget {α : Type} (d : Dict α) (k : String) : Option α :=
  (List.find? (fun p => p.1 == k) d).map (fun p => p.2)

/-- Number of entries stored under key `k`. -/
def countKey {α : Type} (d : Dict α) (k : String) : Nat :=
  (List.filter (fun p => p.1 == k) d).length

/-- OccupationProfile record produced by `parse_ooh`. -/
structure OccupationProfile where
  title : String
  summary : Option String
  entry_education : Option String
  ooh_url : Option String
deriving DecidableEq

/-- WageStats record produced by `load_oews`. -/
structure WageStats where
  p25 : Option Rat
  median : Option Rat
deriving DecidableEq

/-- EducationCostEstimate produced by `edu_cost`. -/
structure EducationCost where
  years : Nat
  total_tuition_fees : Int
  note : String
deriving DecidableEq

/-- Output unit assembled by `main`'s aggregation loop. -/
structure CareerRecord where
  title : String
  summary : Option String
  entry_education : Option String
  ooh_url : String
  starting_proxy_annual : Option Rat
  median_annual : Option Rat
  education_cost : Option EducationCost
deriving DecidableEq

/-- One `<occupation>` element of the OOH XML compilation, as seen through
`ElementTree.findtext`: each field is `none` when the child element is
missing. -/
structure OohEntry where
  title : Option String
  summary : Option String
  education : Option String
  entry_level_education : Option String
  url : Option String
deriving DecidableEq

/-- `(occ.findtext("title") or "").strip()`. -/
def oohTitle (e : OohEntry) : String := pyStrip (pyOrDefault e.title "")

/-- The profile record `parse_ooh` stores for a non-skipped entry. -/
def mkProfile (occ : OohEntry) : OccupationProfile :=
  { title := oohTitle occ
    summary :=
      match occ.summary with
      | none => none
      | some s => if s = "" then some s else some (squeeze s)
    entry_education :=
      let edu := pyOrDefault occ.education (pyOrDefault occ.entry_level_education "")
      if edu = "" then none else some (squeeze edu)
    ooh_url :=
      let url := pyOrDefault occ.url ""
      if url = "" then none else some (pyStrip url) }

/-- One fold step of `parse_ooh`'s loop over `root.findall(".//occupation")`. -/
def oohStep (out : Dict OccupationProfile) (occ : OohEntry) : Dict OccupationProfile :=
  if oohTitle occ = "" then out else dinsert out (norm (oohTitle occ)) (mkProfile occ)

/-- `parse_ooh` from `build_careers.py` (the XML tree is abstracted to the
list of its `occupation` entries; XML parsing is an excluded collaborator). -/
def parse_ooh (occs : List OohEntry) : Dict OccupationProfile :=
  occs.foldl oohStep []

/-- A pandas cell: missing (`NaN`/`None`), numeric, or text. -/
inductive Cell : Type where
  | na : Cell
  | num : Rat → Cell
  | str : String → Cell
deriving DecidableEq

/-- `pd.notna`. -/
def cellNotna : Cell → Bool
  | Cell.na => false
  | _ => true

/-- Whether a cell holds a Python `str`. -/
def cellIsStr : Cell → Bool
  | Cell.str _ => true
  | _ => false

/-- The string held by a text cell (`""` otherwise). -/
def cellStrD : Cell → String
  | Cell.str s => s
  | _ => ""

/-- The tabular dataset read by `pd.read_excel`: column labels plus rows of
cells aligned with the columns. -/
structure Table where
  cols : List String
  rows : List (List Cell)

/-- Row access by column label (`r[c]` / `r.get(c)`), `na` when absent. -/
def rowGet (cols : List String) (row : List Cell) (c : String) : Cell :=
  match List.findIdx? (fun x => x == c) cols with
  | some i => row.getD i Cell.na
  | none => Cell.na

/-- Digit run to natural number. -/
def digitsToNat (l : List Char) : Nat :=
  l.foldl (fun acc c => acc * 10 + (c.toNat - 48)) 0

/-- Python `float(str)` on plain decimal literals (optional sign, optional
fraction); scientific notation / `inf` / `nan` spellings are outside the
fragment exercised here.  Returns `none` exactly when `float` raises
`ValueError` on such input (e.g. `"**"` or `""`). -/
def parseNumStr (s : String) : Option Rat :=
  let l := stripChars s.data
  let neg : Bool := match l with | '-' :: _ => true | _ => false
  let core := match l with | '-' :: t => t | '+' :: t => t | _ => l
  let ip := core.takeWhile (fun c => c.isDigit)
  let rest := core.dropWhile (fun c => c.isDigit)
  match rest with
  | [] =>
    if ip.isEmpty then none
    else some (if neg then -(digitsToNat ip : Rat) else (digitsToNat ip : Rat))
  | '.' :: fp =>
    if fp.all (fun c => c.isDigit) && !(ip.isEmpty && fp.isEmpty) then
      let v : Rat := (digitsToNat ip : Rat) + (digitsToNat fp : Rat) / ((10 : Rat) ^ fp.length)
      some (if neg then -v else v)
    else none
  | _ => none

/-- Python `float(cell)`: numbers convert, text parses or raises
`ValueError`.  (The `na` case is unreachable in the source: every call is
guarded by `pd.notna`.) -/
def pyFloat : Cell → Except String Rat
  | Cell.num x => Except.ok x
  | Cell.str s =>
    match parseNumStr s with
    | some x => Except.ok x
    | none => Except.error "ValueError"
  | Cell.na => Except.error "ValueError"

/-- The single-scan column resolver used by `load_oews`:
`next((c for c in cols if p1 in c or (pa in c and pb in c)), None)`. -/
def resolveCol (p1 pa pb : String) (cols : List String) : Option String :=
  cols.find? (fun c => pyIn p1 c || (pyIn pa c && pyIn pb c))

/-- The 25th-percentile wage column chosen by `load_oews`. -/
def p25ColOf (cols : List String) : Option String :=
  resolveCol "annual 25th percentile" "25" "annual" cols

/-- The median wage column chosen by `load_oews`. -/
def medColOf (cols : List String) : Option String :=
  resolveCol "annual median" "median" "annual" cols

/-- `title_col = next((c for c in cols if "occupation title" in c), cols[0])`. -/
def titleColOf (cols : List String) : String :=
  (cols.find? (fun c => pyIn "occupation title" c)).getD (cols.headD "")

/-- `float(r[c]) if c and pd.notna(r[c]) else None` for an optionally
resolved wage column `c`. -/
def wageField (cols : List String) (row : List Cell) (col? : Option String) :
    Except String (Option Rat) :=
  match col? with
  | none => Except.ok none
  | some c =>
    if !(c == "") && cellNotna (rowGet cols row c) then
      (pyFloat (rowGet cols row c)).map Option.some
    else Except.ok none

/-- The `WageStats` value `load_oews` computes for one row. -/
def rowWage (cols : List String) (p25c medc : Option String) (row : List Cell) :
    Except String WageStats := do
  let p ← wageField cols row p25c
  let m ← wageField cols row medc
  Except.ok ⟨p, m⟩

/-- One iteration of `load_oews`'s row loop: rows whose title cell is not a
string are skipped; otherwise the row's wage record is stored under the
normalized title. -/
def rowStep (cols : List String) (titlec : String) (p25c medc : Option String)
    (out : Dict WageStats) (row : List Cell) : Except String (Dict WageStats) :=
  match rowGet cols row titlec with
  | Cell.str s => (rowWage cols p25c medc row).map (fun w => dinsert out (norm s) w)
  | _ => Except.ok out

/-- `load_oews` from `build_careers.py` (spreadsheet reading is an excluded
collaborator; the dataframe is abstracted to a `Table`).  An empty column
list makes the positional fallback `df.columns[0]` raise `IndexError`;
otherwise rows are folded left to right, and a `float` failure anywhere
aborts with `ValueError`, exactly as an uncaught exception would. -/
def load_oews (tbl : Table) : Except String (Dict WageStats) :=
  let cols := tbl.cols.map (fun c => norm c)
  if cols.isEmpty then Except.error "IndexError"
  else
    tbl.rows.foldlM (rowStep cols (titleColOf cols) (p25ColOf cols) (medColOf cols)) []

/-- `edu_cost` from `build_careers.py`.  The two module-level tuition
constants (`MI_PUBLIC_2YR`, `MI_PUBLIC_4YR`) are the script's editable
configuration, taken here as parameters. -/
def edu_cost (MI_PUBLIC_2YR MI_PUBLIC_4YR : Int) (entry_edu : Option String) :
    Option EducationCost :=
  let e := lowerStr (pyOrDefault entry_edu "")
  if e = "" then none
  else if pyIn "associate" e then
    some ⟨2, MI_PUBLIC_2YR * 2, "Community college estimate (tuition+fees only)."⟩
  else if pyIn "bachelor" e then
    some ⟨4, MI_PUBLIC_4YR * 4, "Public 4-year in-state estimate (tuition+fees only)."⟩
  else if pyIn "master" e then
    some ⟨6, MI_PUBLIC_4YR * 6, "Very rough estimate (tuition+fees only)."⟩
  else if pyIn "doctoral" e || pyIn "professional" e then
    some ⟨8, MI_PUBLIC_4YR * 8, "Very rough estimate (tuition+fees only)."⟩
  else if pyIn "postsecondary nondegree" e then
    some ⟨1, MI_PUBLIC_2YR, "Certificate/trade estimate (tuition+fees only)."⟩
  else if pyIn "high school" e || pyIn "no formal" e then
    some ⟨0, 0, "No college required; training may still cost money."⟩
  else none

/-- The ordered rule table of the spec's education cost estimator (section
4.4): trigger substrings paired with the estimate each rule returns. -/
def specRules (twoYr fourYr : Int) : List (List String × EducationCost) :=
  [ (["associate"], ⟨2, 2 * twoYr, "Community college estimate (tuition+fees only)."⟩),
    (["bachelor"], ⟨4, 4 * fourYr, "Public 4-year in-state estimate (tuition+fees only)."⟩),
    (["master"], ⟨6, 6 * fourYr, "Very rough estimate (tuition+fees only)."⟩),
    (["doctoral", "professional"], ⟨8, 8 * fourYr, "Very rough estimate (tuition+fees only)."⟩),
    (["postsecondary nondegree"], ⟨1, 1 * twoYr, "Certificate/trade estimate (tuition+fees only)."⟩),
    (["high school", "no formal"], ⟨0, 0, "No college required; training may still cost money."⟩) ]

/-- Modelled from the spec (section 4.4): the education cost estimator as
the spec words it — case-insensitive substring matching evaluated over the
ordered rule table, first match wins, absent/empty input yields an absent
result.  Used only to compare the spec's reading against `edu_cost`. -/
def eduCostSpec (twoYr fourYr : Int) (entry_edu : Option String) : Option EducationCost :=
  match entry_edu with
  | none => none
  | some s =>
    if s = "" then none
    else
      ((specRules twoYr fourYr).find?
        (fun r => r.1.any (fun p => pyIn p (lowerStr s)))).map (fun r => r.2)

/-- UTF-8 encoding of one character (byte values). -/
def utf8Bytes (c : Char) : List Nat :=
  let n := c.toNat
  if n < 128 then [n]
  else if n < 2048 then [192 + n / 64, 128 + n % 64]
  else if n < 65536 then [224 + n / 4096, 128 + (n / 64) % 64, 128 + n % 64]
  else [240 + n / 262144, 128 + (n / 4096) % 64, 128 + (n / 64) % 64, 128 + n % 64]

/-- Uppercase hexadecimal digit. -/
def hexDigit (n : Nat) : Char :=
  if n < 10 then Char.ofNat (48 + n) else Char.ofNat (55 + n)

/-- Bytes left intact by `urllib`/`requests.utils.quote` with the default
`safe='/'`: unreserved characters plus the slash. -/
def quoteSafe (b : Nat) : Bool :=
  (65 ≤ b && b ≤ 90) || (97 ≤ b && b ≤ 122) || (48 ≤ b && b ≤ 57) ||
    b = 45 || b = 46 || b = 95 || b = 126 || b = 47

/-- `requests.utils.quote(s)`: percent-encode the UTF-8 bytes of `s`,
keeping safe bytes verbatim. -/
def pyQuote (s : String) : String :=
  ⟨(s.data.flatMap utf8Bytes).flatMap
    (fun b => if quoteSafe b then [Char.ofNat b] else ['%', hexDigit (b / 16), hexDigit (b % 16)])⟩

/-- The search-URL template used when a profile has no usable URL. -/
def urlBase : String := "https://www.bls.gov/ooh/occupation-finder.htm?search="

/-- The default profile `main` substitutes for an unmatched target:
`{"title": title, "summary": None, "entry_education": None, "ooh_url": None}`. -/
def defaultProfile (title : String) : OccupationProfile :=
  ⟨title, none, none, none⟩

/-- Python `rec["ooh_url"] or fallback`: `None` and `""` are falsy. -/
def pyUrlOr (u : Option String) (fallback : String) : String :=
  match u with
  | none => fallback
  | some s => if s = "" then fallback else s

/-- The body of `main`'s aggregation loop: build one `CareerRecord` for one
target title from the two mappings and the estimator. -/
def buildOne (est : Option String → Option EducationCost)
    (ooh : Dict OccupationProfile) (wages : Dict WageStats) (title : String) :
    CareerRecord :=
  let k := norm title
  let rec_ := (dget ooh k).getD (defaultProfile title)
  let w := (dget wages k).getD ⟨none, none⟩
  { title := rec_.title
    summary := rec_.summary
    entry_education := rec_.entry_education
    ooh_url := pyUrlOr rec_.ooh_url (urlBase ++ pyQuote rec_.title)
    starting_proxy_annual := w.p25
    median_annual := w.median
    education_cost := est rec_.entry_education }

/-- `main`'s aggregation step over an ordered target list: an append-only
loop, one record per target. -/
def aggregate (est : Option String → Option EducationCost)
    (ooh : Dict OccupationProfile) (wages : Dict WageStats)
    (targets : List String) : List CareerRecord :=
  targets.foldl (fun careers title => careers ++ [buildOne est ooh wages title]) []

/-- The fixed target-title list of `build_careers.py`. -/
def TARGET_TITLES : List String :=
  [ "Software Developers",
    "Registered Nurses",
    "Accountants and Auditors",
    "Elementary School Teachers, Except Special Education",
    "Electricians",
    "Plumbers, Pipefitters, and Steamfitters",
    "Web Developers",
    "Computer Systems Analysts",
    "Physical Therapist Assistants",
    "Occupational Therapy Assistants",
    "Dental Hygienists",
    "Radiologic Technologists and Technicians",
    "Project Management Specialists",
    "Graphic Designers",
    "Market Research Analysts and Marketing Specialists",
    "Construction Managers",
    "Carpenters",
    "Firefighters",
    "Police and Sheriff's Patrol Officers",
    "Environmental Scientists and Specialists, Including Health" ]

/-- The script's tuition configuration constants (placeholders in source). -/
def MI_PUBLIC_2YR : Int := 0

/-- The script's 4-year tuition configuration constant. -/
def MI_PUBLIC_4YR : Int := 0

/-- `main`'s career list, given the two parsed sources. -/
def mainCareers (ooh : Dict OccupationProfile) (wages : Dict WageStats) :
    List CareerRecord :=
  aggregate (edu_cost MI_PUBLIC_2YR MI_PUBLIC_4YR) ooh wages TARGET_TITLES

/-- Maximal whitespace-separated words of a character list (used to state
that `norm` identifies strings that differ only in whitespace runs). -/
def tokens : List Char → List (List Char)
  | [] => []
  | [c] => if pyIsSpace c then [] else [[c]]
  | c :: d :: cs =>
    if pyIsSpace c then tokens (d :: cs)
    else
      match tokens (d :: cs) with
      | [] => [[c]]
      | t :: ts => if pyIsSpace d then [c] :: t :: ts else (c :: t) :: ts

/-- Interleave tokens with single spaces. -/
def joinTokens : List (List Char) → List Char
  | [] => []
  | [t] => t
  | t :: ts => t ++ ' ' :: joinTokens ts

/-- No two consecutive whitespace characters. -/
def noConsecWS : List Char → Bool
  | a :: b :: r => !(pyIsSpace a && pyIsSpace b) && noConsecWS (b :: r)
  | _ => true

/-- First character, if any, is not whitespace. -/
def noLeadWS : List Char → Bool
  | [] => true
  | c :: _ => !pyIsSpace c

/-- Last character, if any, is not whitespace. -/
def noTrailWS : List Char → Bool
  | [] => true
  | [c] => !pyIsSpace c
  | _ :: c :: r => noTrailWS (c :: r)


/-! ### Basic lemmas: characters, dictionaries, substrings -/

theorem toNat_ofNat_valid {n : Nat} (h : n < 55296) : (Char.ofNat n).toNat = n := by
  rw [Char.ofNat, dif_pos (Or.inl h)]
  simp [Char.ofNatAux, Char.toNat, UInt32.toNat]

theorem lowerChar_lowerChar (c : Char) : lowerChar (lowerChar c) = lowerChar c := by
  by_cases h1 : 65 ≤ c.toNat ∧ c.toNat ≤ 90
  · have e1 : lowerChar c = Char.ofNat (c.toNat + 32) := by unfold lowerChar; exact if_pos h1
    have ht : (Char.ofNat (c.toNat + 32)).toNat = c.toNat + 32 := by
      have hv : c.toNat + 32 < 55296 := by omega
      exact toNat_ofNat_valid hv
    have e2 : lowerChar (Char.ofNat (c.toNat + 32)) = Char.ofNat (c.toNat + 32) := by
      unfold lowerChar
      exact if_neg (by rw [ht]; omega)
    rw [e1, e2]
  · have e1 : lowerChar c = c := by unfold lowerChar; exact if_neg h1
    rw [e1, e1]

theorem pyIsSpace_lowerChar (c : Char) : pyIsSpace (lowerChar c) = pyIsSpace c := by
  by_cases h1 : 65 ≤ c.toNat ∧ c.toNat ≤ 90
  · have e1 : lowerChar c = Char.ofNat (c.toNat + 32) := by unfold lowerChar; exact if_pos h1
    have ht : (Char.ofNat (c.toNat + 32)).toNat = c.toNat + 32 := by
      have hv : c.toNat + 32 < 55296 := by omega
      exact toNat_ofNat_valid hv
    rw [e1]
    unfold pyIsSpace
    rw [ht]
    have ha : ∀ m : Nat, 65 ≤ m →
        (decide (m = 32) || decide (m = 9) || decide (m = 10) || decide (m = 13) ||
          decide (m = 11) || decide (m = 12)) = false := by
      intro m hm
      simp only [Bool.or_eq_false_iff, decide_eq_false_iff_not]
      omega
    rw [ha _ (by omega), ha _ (by omega)]
  · have e1 : lowerChar c = c := by unfold lowerChar; exact if_neg h1
    rw [e1]

theorem lowerChar_space : lowerChar ' ' = ' ' := by decide

theorem find?_filterKey {α : Type} (d : Dict α) (k k' : String) (h : ¬ k' = k) :
    List.find? (fun p => p.1 == k') (List.filter (fun p => !(p.1 == k)) d) =
      List.find? (fun p => p.1 == k') d := by
  induction d with
  | nil => rfl
  | cons p d ih =>
    by_cases hp : p.1 = k
    · have hcons : List.filter (fun q => !(q.1 == k)) (p :: d) =
          List.filter (fun q => !(q.1 == k)) d := by
        simp [List.filter_cons, hp]
      rw [hcons, ih]
      have hne : ((fun q : String × α => q.1 == k') p) = false := by
        simp only [beq_eq_false_iff_ne, ne_eq, hp]
        exact fun hh => h hh.symm
      rw [List.find?_cons_of_neg _ (by simp [hne])]
  -- the symmetric case: the head survives the filter
    · have hcons : List.filter (fun q => !(q.1 == k)) (p :: d) =
          p :: List.filter (fun q => !(q.1 == k)) d := by
        simp [List.filter_cons, hp]
      rw [hcons]
      by_cases hk' : p.1 = k'
      · rw [List.find?_cons_of_pos _ (by simp [hk']), List.find?_cons_of_pos _ (by simp [hk'])]
      · rw [List.find?_cons_of_neg _ (by simp [hk']), List.find?_cons_of_neg _ (by simp [hk']), ih]

theorem dget_dinsert {α : Type} (d : Dict α) (k k' : String) (v : α) :
    dget (dinsert d k v) k' = if k' = k then some v else dget d k' := by
  unfold dget dinsert
  rw [List.find?_append]
  by_cases h : k' = k
  · subst h
    have hnil : List.find? (fun p => p.1 == k') (List.filter (fun p => !(p.1 == k')) d) = none := by
      rw [List.find?_eq_none]
      intro x hx
      have hx2 := (List.mem_filter.1 hx).2
      simp only [Bool.not_eq_true', beq_eq_false_iff_ne, ne_eq] at hx2
      simp [hx2]
    rw [hnil]
    simp [List.find?]
  · have h1 : List.find? (fun p => p.1 == k') [(k, v)] = none := by
      simp only [List.find?]
      have : ((k, v).1 == k') = false := by
        simp only [beq_eq_false_iff_ne, ne_eq]
        exact fun hh => h hh.symm
      simp [this]
    rw [h1, Option.or_none, find?_filterKey d k k' h, if_neg h]

theorem countKey_dinsert {α : Type} (d : Dict α) (k k' : String) (v : α) :
    countKey (dinsert d k v) k' = if k' = k then 1 else countKey d k' := by
  unfold countKey dinsert
  rw [List.filter_append, List.length_append, List.filter_filter]
  by_cases h : k' = k
  · subst h
    have h1 : List.filter (fun a => a.1 == k' && !(a.1 == k')) d = [] := by
      apply List.filter_eq_nil_iff.2
      intro a _
      by_cases ha : a.1 = k' <;> simp [ha]
    have h2 : List.filter (fun p => p.1 == k') [(k', v)] = [(k', v)] := by
      simp [List.filter]
    rw [h1, h2]
    simp
  · have h1 : List.filter (fun a => a.1 == k' && !(a.1 == k)) d =
        List.filter (fun a => a.1 == k') d := by
      apply List.filter_congr
      intro a _
      by_cases ha : a.1 = k'
      · have hak : ¬ a.1 = k := fun hh => h (ha.symm.trans hh)
        have hakb : (a.1 == k) = false := by simp [hak]
        simp [ha, hakb]
        exact h
      · simp [ha]
    have h2 : List.filter (fun p => p.1 == k') [(k, v)] = [] := by
      simp only [List.filter]
      have : ((k, v).1 == k') = false := by
        simp only [beq_eq_false_iff_ne, ne_eq]
        exact fun hh => h hh.symm
      simp [this]
    rw [h1, h2]
    simp [h]

theorem isPrefixOf_iff (n h : List Char) :
    n.isPrefixOf h = true ↔ ∃ q, h = n ++ q := by
  induction n generalizing h with
  | nil => simp [List.isPrefixOf]
  | cons a n ih =>
    cases h with
    | nil =>
      simp [List.isPrefixOf]
    | cons b t =>
      simp only [List.isPrefixOf, Bool.and_eq_true, beq_iff_eq, ih, List.cons_append,
        List.cons.injEq]
      constructor
      · rintro ⟨rfl, q, rfl⟩
        exact ⟨q, rfl, rfl⟩
      · rintro ⟨q, rfl, rfl⟩
        exact ⟨rfl, q, rfl⟩

theorem containsSub_iff : ∀ (h n : List Char),
    containsSub h n = true ↔ ∃ p q, h = p ++ n ++ q
  | [], n => by
    simp only [containsSub, Bool.or_false, isPrefixOf_iff]
    constructor
    · rintro ⟨q, hq⟩
      rcases List.append_eq_nil.1 hq.symm with ⟨rfl, rfl⟩
      exact ⟨[], [], rfl⟩
    · rintro ⟨p, q, hpq⟩
      rcases List.append_eq_nil.1 hpq.symm with ⟨hpn, rfl⟩
      rcases List.append_eq_nil.1 hpn with ⟨rfl, rfl⟩
      exact ⟨[], rfl⟩
  | a :: t, n => by
    simp only [containsSub, Bool.or_eq_true, isPrefixOf_iff, containsSub_iff t n]
    constructor
    · rintro (⟨q, hq⟩ | ⟨p, q, hpq⟩)
      · exact ⟨[], q, by simpa using hq⟩
      · exact ⟨a :: p, q, by simp [hpq]⟩
    · rintro ⟨p, q, hpq⟩
      cases p with
      | nil => exact Or.inl ⟨q, by simpa using hpq⟩
      | cons x p' =>
        right
        simp only [List.cons_append, List.cons.injEq, List.append_assoc] at hpq
        exact ⟨p', q, by simp [hpq.2]⟩

theorem pyIn_trans {a b c : String} (h₁ : pyIn a b = true) (h₂ : pyIn b c = true) :
    pyIn a c = true := by
  unfold pyIn at *
  rw [containsSub_iff] at *
  obtain ⟨p, q, hb⟩ := h₁
  obtain ⟨r, s, hc⟩ := h₂
  refine ⟨r ++ p, q ++ s, ?_⟩
  rw [hc, hb]
  simp

/-! ### Aggregation -/

theorem foldl_append_singleton {α β : Type} (f : α → β) :
    ∀ (l : List α) (acc : List β),
      l.foldl (fun a x => a ++ [f x]) acc = acc ++ l.map f := by
  intro l
  induction l with
  | nil => intro acc; simp
  | cons x l ih =>
    intro acc
    simp only [List.foldl_cons, List.map_cons]
    rw [ih]
    simp

theorem aggregate_eq_map (est : Option String → Option EducationCost)
    (ooh : Dict OccupationProfile) (wages : Dict WageStats) (targets : List String) :
    aggregate est ooh wages targets = targets.map (buildOne est ooh wages) := by
  unfold aggregate
  rw [foldl_append_singleton]
  simp

/-! ### Wage-column resolution -/

theorem find?_pred_congr {α : Type} (p q : α → Bool) (hpq : ∀ a, p a = q a) :
    ∀ l : List α, List.find? p l = List.find? q l := by
  intro l
  induction l with
  | nil => rfl
  | cons a l ih =>
    rw [List.find?_cons, List.find?_cons, hpq a, ih]

theorem resolveCol_eq_snd (p1 pa pb : String)
    (hpa : pyIn pa p1 = true) (hpb : pyIn pb p1 = true) (cols : List String) :
    resolveCol p1 pa pb cols = cols.find? (fun c => pyIn pa c && pyIn pb c) := by
  unfold resolveCol
  apply find?_pred_congr
  intro c
  by_cases h1 : pyIn p1 c = true
  · have ha := pyIn_trans hpa h1
    have hb := pyIn_trans hpb h1
    simp [h1, ha, hb]
  · simp only [Bool.not_eq_true] at h1
    simp [h1]

/-! ### Whitespace canonical form: `norm` as join of lowercased tokens -/

theorem dropTrailWS_eq_nil_iff : ∀ l : List Char,
    dropTrailWS l = [] ↔ ∀ c ∈ l, pyIsSpace c = true
  | [] => by simp [dropTrailWS]
  | c :: cs => by
    have ihcs := dropTrailWS_eq_nil_iff cs
    simp only [dropTrailWS]
    rcases hr : dropTrailWS cs with _ | ⟨x, r⟩
    · have hall := ihcs.1 hr
      by_cases hc : pyIsSpace c = true
      · simp only [hc, if_pos]
        constructor
        · intro _ a ha
          rcases List.mem_cons.1 ha with rfl | ha'
          · exact hc
          · exact hall a ha'
        · intro _
          trivial
      · simp only [hc, if_neg, Bool.false_eq_true, not_false_iff, if_false]
        constructor
        · intro habs
          exact absurd habs (by simp)
        · intro hall2
          exact absurd (hall2 c (List.mem_cons_self c cs)) hc
    · have hne : dropTrailWS cs ≠ [] := by rw [hr]; simp
      have hcs : ¬ ∀ a ∈ cs, pyIsSpace a = true := fun hall => hne (ihcs.2 hall)
      constructor
      · intro habs
        exact absurd habs (by simp)
      · intro hall2
        exact absurd (fun a ha => hall2 a (List.mem_cons_of_mem c ha)) hcs

theorem tokens_eq_nil_iff : ∀ l : List Char,
    tokens l = [] ↔ ∀ c ∈ l, pyIsSpace c = true
  | [] => by simp [tokens]
  | [c] => by
    by_cases hc : pyIsSpace c = true <;> simp [tokens, hc]
  | c :: d :: cs => by
    have ih := tokens_eq_nil_iff (d :: cs)
    by_cases hc : pyIsSpace c = true
    · simp only [tokens, hc, if_pos]
      constructor
      · intro h a ha
        rcases List.mem_cons.1 ha with rfl | ha'
        · exact hc
        · exact (ih.1 h) a ha'
      · intro hall
        exact ih.2 (fun a ha => hall a (List.mem_cons_of_mem c ha))
    · simp only [tokens, hc, Bool.false_eq_true, not_false_iff, if_neg, if_false]
      constructor
      · intro habs
        rcases h2 : tokens (d :: cs) with _ | ⟨t, ts⟩ <;> rw [h2] at habs
        · exact absurd habs (by simp)
        · by_cases hd : pyIsSpace d = true <;> simp [hd] at habs
      · intro hall2
        exact absurd (hall2 c (List.mem_cons_self c (d :: cs))) hc

theorem tokens_cons_ws {c : Char} (hc : pyIsSpace c = true) :
    ∀ l : List Char, tokens (c :: l) = tokens l
  | [] => by simp [tokens, hc]
  | d :: cs => by simp [tokens, hc]

theorem dropTrailWS_cons (c : Char) (cs : List Char) :
    dropTrailWS (c :: cs) =
      if dropTrailWS cs = [] then (if pyIsSpace c then [] else [c])
      else c :: dropTrailWS cs := by
  simp only [dropTrailWS]
  rcases hr : dropTrailWS cs with _ | ⟨x, r⟩ <;> simp

theorem collapseAux_true_dropTrail : ∀ m : List Char,
    collapseAux true (dropTrailWS m) =
      collapseAux false (dropTrailWS (m.dropWhile pyIsSpace))
  | [] => rfl
  | e :: m' => by
    have ih := collapseAux_true_dropTrail m'
    by_cases he : pyIsSpace e = true
    · rw [List.dropWhile_cons_of_pos he]
      rcases hr : dropTrailWS m' with _ | ⟨x, r⟩
      · have hd : dropTrailWS (e :: m') = [] := by
          rw [dropTrailWS_cons, if_pos hr, if_pos he]
        rw [hd, ← ih, hr]
      · have hd : dropTrailWS (e :: m') = e :: x :: r := by
          rw [dropTrailWS_cons, if_neg (by rw [hr]; simp), hr]
        rw [hd]
        have hskip : collapseAux true (e :: x :: r) = collapseAux true (x :: r) := by
          simp [collapseAux, he]
        rw [hskip, ← hr, ih]
    · rw [List.dropWhile_cons_of_neg (by simpa using he)]
      have hd : dropTrailWS (e :: m') = e :: dropTrailWS m' := by
        rw [dropTrailWS_cons]
        rcases hr : dropTrailWS m' with _ | ⟨x, r⟩
        · simp [he]
        · simp
      rw [hd]
      simp [collapseAux, he]

theorem joinTokens_cons_cons (c : Char) (t : List Char) (ts : List (List Char)) :
    joinTokens ((c :: t) :: ts) = c :: joinTokens (t :: ts) := by
  cases ts with
  | nil => rfl
  | cons t' ts' => simp [joinTokens]

theorem tokens_master : ∀ l : List Char,
    collapseAux false (stripChars l) = joinTokens (tokens l)
  | [] => rfl
  | [c] => by
    by_cases hc : pyIsSpace c = true <;>
      simp [tokens, stripChars, dropTrailWS, collapseAux, joinTokens, hc, List.dropWhile]
  | c :: d :: cs => by
    have ihtail := tokens_master (d :: cs)
    have ihcs := tokens_master cs
    by_cases hc : pyIsSpace c = true
    · -- leading whitespace is dropped by strip and ignored by tokens
      have h1 : stripChars (c :: d :: cs) = stripChars (d :: cs) := by
        unfold stripChars
        rw [List.dropWhile_cons_of_pos hc]
      rw [h1, ihtail, tokens_cons_ws hc]
    · have h1 : stripChars (c :: d :: cs) = dropTrailWS (c :: d :: cs) := by
        unfold stripChars
        rw [List.dropWhile_cons_of_neg (by simpa using hc)]
      rw [h1, dropTrailWS_cons]
      by_cases hnil : dropTrailWS (d :: cs) = []
      · -- everything after c is whitespace
        have hall : ∀ a ∈ d :: cs, pyIsSpace a = true := (dropTrailWS_eq_nil_iff _).1 hnil
        have htok : tokens (d :: cs) = [] := (tokens_eq_nil_iff _).2 hall
        rw [if_pos hnil, if_neg (by simp [hc])]
        have htokens : tokens (c :: d :: cs) = [[c]] := by
          simp only [tokens]
          rw [if_neg hc, htok]
        rw [htokens]
        simp [collapseAux, hc, joinTokens]
      · rw [if_neg hnil]
        have hstep : collapseAux false (c :: dropTrailWS (d :: cs)) =
            c :: collapseAux false (dropTrailWS (d :: cs)) := by
          rcases hx : dropTrailWS (d :: cs) with _ | ⟨x, r⟩
          · simp [collapseAux, hc]
          · simp [collapseAux, hc]
        rw [hstep]
        by_cases hd : pyIsSpace d = true
        · -- d opens an inner whitespace run
          have hne : dropTrailWS cs ≠ [] := by
            intro habs
            apply hnil
            rw [dropTrailWS_cons, if_pos habs, if_pos hd]
          have hd2 : dropTrailWS (d :: cs) = d :: dropTrailWS cs := by
            rw [dropTrailWS_cons, if_neg hne]
          rw [hd2]
          have hskip2 : collapseAux false (d :: dropTrailWS cs) =
              ' ' :: collapseAux true (dropTrailWS cs) := by
            simp [collapseAux, hd]
          rw [hskip2, collapseAux_true_dropTrail cs]
          have hcsne : ¬ ∀ a ∈ cs, pyIsSpace a = true :=
            fun hall => hne ((dropTrailWS_eq_nil_iff _).2 hall)
          have htne : tokens cs ≠ [] := fun habs => hcsne ((tokens_eq_nil_iff _).1 habs)
          rcases htk : tokens cs with _ | ⟨t, ts⟩
          · exact absurd htk htne
          · have h3 : tokens (d :: cs) = t :: ts := by rw [tokens_cons_ws hd]; exact htk
            have htokens : tokens (c :: d :: cs) = [c] :: t :: ts := by
              simp only [tokens]
              rw [if_neg hc, h3]
              simp [hd]
            rw [htokens]
            have hjoin : joinTokens ([c] :: t :: ts) = c :: ' ' :: joinTokens (t :: ts) := by
              simp [joinTokens]
            rw [hjoin]
            unfold stripChars at ihcs
            rw [htk] at ihcs
            rw [ihcs]
        · -- d extends the current token
          have hd2 : dropTrailWS (d :: cs) = d :: dropTrailWS cs := by
            rw [dropTrailWS_cons]
            rcases hr2 : dropTrailWS cs with _ | ⟨y, q⟩
            · simp [hd]
            · simp
          have htne : tokens (d :: cs) ≠ [] := by
            intro habs
            have := (tokens_eq_nil_iff _).1 habs d (List.mem_cons_self d cs)
            exact absurd this (by simpa using hd)
          rcases htk : tokens (d :: cs) with _ | ⟨t, ts⟩
          · exact absurd htk htne
          · have htokens : tokens (c :: d :: cs) = (c :: t) :: ts := by
              simp only [tokens]
              rw [if_neg hc, htk]
              simp [hd]
            rw [htokens, joinTokens_cons_cons, ← htk, ← ihtail]
            have hstrip : stripChars (d :: cs) = dropTrailWS (d :: cs) := by
              unfold stripChars
              rw [List.dropWhile_cons_of_neg (by simpa using hd)]
            rw [hstrip]

theorem tokens_wf : ∀ l : List Char, ∀ t ∈ tokens l,
    t ≠ [] ∧ ∀ c ∈ t, pyIsSpace c = false
  | [] => by simp [tokens]
  | [c] => by
    by_cases hc : pyIsSpace c = true
    · simp [tokens, hc]
    · intro t ht
      simp [tokens, hc] at ht
      subst ht
      constructor
      · simp
      · intro a ha
        rcases List.mem_singleton.1 ha with rfl
        simpa [Bool.not_eq_true] using hc
  | c :: d :: cs => by
    have ih := tokens_wf (d :: cs)
    intro t ht
    by_cases hc : pyIsSpace c = true
    · rw [tokens_cons_ws hc] at ht
      exact ih t ht
    · have hcf : pyIsSpace c = false := by simpa [Bool.not_eq_true] using hc
      rcases htk : tokens (d :: cs) with _ | ⟨t', ts⟩ <;>
        simp only [tokens, if_neg hc, htk] at ht
      · rcases List.mem_singleton.1 ht with rfl
        refine ⟨by simp, ?_⟩
        intro a ha
        rcases List.mem_singleton.1 ha with rfl
        exact hcf
      · by_cases hd : pyIsSpace d = true
        · rw [if_pos hd] at ht
          rcases List.mem_cons.1 ht with rfl | ht2
          · refine ⟨by simp, ?_⟩
            intro a ha
            rcases List.mem_singleton.1 ha with rfl
            exact hcf
          · exact ih t (htk ▸ ht2)
        · rw [if_neg hd] at ht
          rcases List.mem_cons.1 ht with rfl | ht2
          · have h1 := ih t' (htk ▸ List.mem_cons_self t' ts)
            refine ⟨by simp, ?_⟩
            intro a ha
            rcases List.mem_cons.1 ha with rfl | ha2
            · exact hcf
            · exact h1.2 a ha2
          · exact ih t (htk ▸ List.mem_cons_of_mem t' ht2)

theorem tokens_mem_subset : ∀ l : List Char, ∀ t ∈ tokens l, ∀ c ∈ t, c ∈ l
  | [] => by simp [tokens]
  | [c] => by
    by_cases hc : pyIsSpace c = true
    · simp [tokens, hc]
    · intro t ht a ha
      simp [tokens, hc] at ht
      subst ht
      rcases List.mem_singleton.1 ha with rfl
      simp
  | c :: d :: cs => by
    have ih := tokens_mem_subset (d :: cs)
    intro t ht a ha
    by_cases hc : pyIsSpace c = true
    · rw [tokens_cons_ws hc] at ht
      exact List.mem_cons_of_mem c (ih t ht a ha)
    · rcases htk : tokens (d :: cs) with _ | ⟨t', ts⟩ <;>
        simp only [tokens, if_neg hc, htk] at ht
      · rcases List.mem_singleton.1 ht with rfl
        rcases List.mem_singleton.1 ha with rfl
        simp
      · by_cases hd : pyIsSpace d = true
        · rw [if_pos hd] at ht
          rcases List.mem_cons.1 ht with rfl | ht2
          · rcases List.mem_singleton.1 ha with rfl
            simp
          · exact List.mem_cons_of_mem c (ih t (htk ▸ ht2) a ha)
        · rw [if_neg hd] at ht
          rcases List.mem_cons.1 ht with rfl | ht2
          · rcases List.mem_cons.1 ha with rfl | ha2
            · simp
            · exact List.mem_cons_of_mem c
                (ih t' (htk ▸ List.mem_cons_self t' ts) a ha2)
          · exact List.mem_cons_of_mem c
              (ih t (htk ▸ List.mem_cons_of_mem t' ht2) a ha)

theorem tokens_map_lower : ∀ l : List Char,
    tokens (l.map lowerChar) = (tokens l).map (List.map lowerChar)
  | [] => by simp [tokens]
  | [c] => by
    by_cases hc : pyIsSpace c = true <;>
      simp [tokens, pyIsSpace_lowerChar, hc]
  | c :: d :: cs => by
    have ih := tokens_map_lower (d :: cs)
    simp only [List.map_cons]
    by_cases hc : pyIsSpace c = true
    · have hlc : pyIsSpace (lowerChar c) = true := by rw [pyIsSpace_lowerChar]; exact hc
      rw [tokens_cons_ws hlc, tokens_cons_ws hc]
      simpa using ih
    · have hlc : ¬ pyIsSpace (lowerChar c) = true := by rw [pyIsSpace_lowerChar]; exact hc
      rcases htk : tokens (d :: cs) with _ | ⟨t', ts⟩
      · have h2 : tokens (lowerChar d :: cs.map lowerChar) = [] := by
          have := ih
          rw [htk] at this
          simpa using this
        simp only [tokens, if_neg hc, if_neg hlc, htk, h2, List.map]
      · have h2 : tokens (lowerChar d :: cs.map lowerChar) =
            (t'.map lowerChar) :: ts.map (List.map lowerChar) := by
          have := ih
          rw [htk] at this
          simpa using this
        by_cases hd : pyIsSpace d = true
        · have hld : pyIsSpace (lowerChar d) = true := by rw [pyIsSpace_lowerChar]; exact hd
          simp only [tokens, if_neg hc, if_neg hlc, htk, h2, if_pos hd, if_pos hld, List.map]
        · have hld : ¬ pyIsSpace (lowerChar d) = true := by rw [pyIsSpace_lowerChar]; exact hd
          simp only [tokens, if_neg hc, if_neg hlc, htk, h2, if_neg hd, if_neg hld, List.map]

theorem tokens_append_token : ∀ (t : List Char), t ≠ [] →
    (∀ c ∈ t, pyIsSpace c = false) →
    ∀ l : List Char, (l = [] ∨ ∃ d l', l = d :: l' ∧ pyIsSpace d = true) →
    tokens (t ++ l) = t :: tokens l
  | [], h, _, _, _ => absurd rfl h
  | [a], _, hall, l, hl => by
    have ha : pyIsSpace a = false := hall a (by simp)
    rcases hl with rfl | ⟨d, l', rfl, hd⟩
    · simp [tokens, ha]
    · simp only [List.singleton_append]
      simp only [tokens]
      rw [if_neg (by simp [ha])]
      rcases htk : tokens (d :: l') with _ | ⟨t', ts⟩
      · simp
      · simp [hd]
  | a :: b :: t'', _, hall, l, hl => by
    have ha : pyIsSpace a = false := hall a (by simp)
    have hb : pyIsSpace b = false := hall b (by simp)
    have ih := tokens_append_token (b :: t'') (by simp)
      (fun c hc => hall c (List.mem_cons_of_mem a hc)) l hl
    simp only [List.cons_append]
    simp only [tokens]
    rw [if_neg (by simp [ha])]
    rw [show tokens (b :: (t'' ++ l)) = (b :: t'') :: tokens l from by simpa using ih]
    simp [hb]

theorem tokens_joinTokens : ∀ ts : List (List Char),
    (∀ t ∈ ts, t ≠ [] ∧ ∀ c ∈ t, pyIsSpace c = false) →
    tokens (joinTokens ts) = ts
  | [], _ => by simp [tokens, joinTokens]
  | [t], h => by
    have ht := h t (by simp)
    simp only [joinTokens]
    have h2 := tokens_append_token t ht.1 ht.2 [] (Or.inl rfl)
    simpa [tokens] using h2
  | t :: t' :: ts, h => by
    have ht := h t (by simp)
    simp only [joinTokens]
    rw [tokens_append_token t ht.1 ht.2 (' ' :: joinTokens (t' :: ts))
      (Or.inr ⟨' ', joinTokens (t' :: ts), rfl, by decide⟩)]
    rw [tokens_cons_ws (by decide)]
    rw [tokens_joinTokens (t' :: ts) (fun u hu => h u (List.mem_cons_of_mem t hu))]

theorem allNonWs_noConsec : ∀ l : List Char,
    (∀ c ∈ l, pyIsSpace c = false) → noConsecWS l = true
  | [] , _ => rfl
  | [c], _ => rfl
  | a :: b :: r, h => by
    have ha : pyIsSpace a = false := h a (by simp)
    have ih := allNonWs_noConsec (b :: r) (fun c hc => h c (List.mem_cons_of_mem a hc))
    simp [noConsecWS, ha, ih]

theorem allNonWs_noTrail : ∀ l : List Char,
    (∀ c ∈ l, pyIsSpace c = false) → noTrailWS l = true
  | [], _ => rfl
  | [c], h => by simp [noTrailWS, h c (by simp)]
  | a :: b :: r, h => by
    have ih := allNonWs_noTrail (b :: r) (fun c hc => h c (List.mem_cons_of_mem a hc))
    simpa [noTrailWS] using ih

theorem noConsec_append_token : ∀ t : List Char,
    (∀ c ∈ t, pyIsSpace c = false) → ∀ m : List Char, noConsecWS m = true →
    noConsecWS (t ++ m) = true
  | [], _, m, hm => by simpa using hm
  | [a], h, m, hm => by
    have ha : pyIsSpace a = false := h a (by simp)
    cases m with
    | nil => rfl
    | cons b r => simp [noConsecWS, ha, hm]
  | a :: b :: t'', h, m, hm => by
    have ha : pyIsSpace a = false := h a (by simp)
    have ih := noConsec_append_token (b :: t'')
      (fun c hc => h c (List.mem_cons_of_mem a hc)) m hm
    simp only [List.cons_append] at ih ⊢
    simp [noConsecWS, ha, ih]

theorem noTrailWS_append : ∀ t m : List Char, m ≠ [] →
    noTrailWS (t ++ m) = noTrailWS m
  | [], m, _ => by simp
  | [a], m, hm => by
    cases m with
    | nil => exact absurd rfl hm
    | cons b r => simp [noTrailWS]
  | a :: b :: t'', m, hm => by
    have ih := noTrailWS_append (b :: t'') m hm
    simpa [noTrailWS] using ih

theorem joinTokens_ne_nil (t : List Char) (ts : List (List Char)) (ht : t ≠ []) :
    joinTokens (t :: ts) ≠ [] := by
  cases ts with
  | nil => simpa [joinTokens] using ht
  | cons t' ts' =>
    simp only [joinTokens]
    intro habs
    rcases List.append_eq_nil.1 habs with ⟨rfl, _⟩
    exact ht rfl

theorem joinTokens_wf : ∀ ts : List (List Char),
    (∀ t ∈ ts, t ≠ [] ∧ ∀ c ∈ t, pyIsSpace c = false) →
    noConsecWS (joinTokens ts) = true ∧ noLeadWS (joinTokens ts) = true ∧
      noTrailWS (joinTokens ts) = true
  | [], _ => by simp [joinTokens, noConsecWS, noLeadWS, noTrailWS]
  | [t], h => by
    have ht := h t (by simp)
    simp only [joinTokens]
    refine ⟨allNonWs_noConsec t ht.2, ?_, allNonWs_noTrail t ht.2⟩
    cases t with
    | nil => exact absurd rfl ht.1
    | cons a t2 => simp [noLeadWS, ht.2 a (by simp)]
  | t :: t' :: ts, h => by
    have ht := h t (by simp)
    have ih := joinTokens_wf (t' :: ts) (fun u hu => h u (List.mem_cons_of_mem t hu))
    have ht' := h t' (by simp)
    have hjn : joinTokens (t' :: ts) ≠ [] := joinTokens_ne_nil t' ts ht'.1
    simp only [joinTokens]
    refine ⟨?_, ?_, ?_⟩
    · apply noConsec_append_token t ht.2
      rcases hx : joinTokens (t' :: ts) with _ | ⟨x, r⟩
      · exact absurd hx hjn
      · have hlx : noLeadWS (x :: r) = true := hx ▸ ih.2.1
        have hwx : pyIsSpace x = false := by simpa [noLeadWS] using hlx
        have hcx : noConsecWS (x :: r) = true := hx ▸ ih.1
        simp [noConsecWS, hwx, hcx]
    · cases t with
      | nil => exact absurd rfl ht.1
      | cons a t2 => simp [noLeadWS, ht.2 a (by simp)]
    · rw [noTrailWS_append t (' ' :: joinTokens (t' :: ts)) (by simp)]
      rcases hx : joinTokens (t' :: ts) with _ | ⟨x, r⟩
      · exact absurd hx hjn
      · have : noTrailWS (x :: r) = true := hx ▸ ih.2.2
        simpa [noTrailWS] using this

theorem map_eq_self_of_fixed {α : Type} (f : α → α) :
    ∀ l : List α, (∀ c ∈ l, f c = c) → l.map f = l
  | [], _ => rfl
  | a :: l, h => by
    rw [List.map_cons, h a (by simp), map_eq_self_of_fixed f l
      (fun c hc => h c (List.mem_cons_of_mem a hc))]

theorem joinTokens_mem : ∀ (ts : List (List Char)) (c : Char), c ∈ joinTokens ts →
    (∃ u ∈ ts, c ∈ u) ∨ c = ' '
  | [], c => by simp [joinTokens]
  | [t], c => by
    intro hc
    simp only [joinTokens] at hc
    exact Or.inl ⟨t, by simp, hc⟩
  | t :: t' :: ts, c => by
    intro hc
    simp only [joinTokens] at hc
    rcases List.mem_append.1 hc with hc1 | hc2
    · exact Or.inl ⟨t, by simp, hc1⟩
    · rcases List.mem_cons.1 hc2 with rfl | hc3
      · exact Or.inr rfl
      · rcases joinTokens_mem (t' :: ts) c hc3 with ⟨u, hu, hcu⟩ | rfl
        · exact Or.inl ⟨u, List.mem_cons_of_mem t hu, hcu⟩
        · exact Or.inr rfl

/-- C6: `norm` is idempotent; its output has no consecutive, leading or
trailing whitespace; it is a total deterministic function; and any two
strings that differ only in letter case (same lowercasing) or only in
whitespace runs (same token lists) receive the same key. -/
theorem norm_properties (s t : String) :
    norm (norm s) = norm s ∧
    noConsecWS (norm s).data = true ∧
    noLeadWS (norm s).data = true ∧
    noTrailWS (norm s).data = true ∧
    (lowerStr s = lowerStr t → norm s = norm t) ∧
    (tokens s.data = tokens t.data → norm s = norm t) := by
  have hdata : ∀ u : String, (norm u).data =
      joinTokens (tokens (u.data.map lowerChar)) := by
    intro u
    exact tokens_master (u.data.map lowerChar)
  have hwf := tokens_wf (s.data.map lowerChar)
  have hnorm := hdata s
  refine ⟨?_, ?_, ?_, ?_, ?_, ?_⟩
  · -- idempotence
    have hfix : (norm s).data.map lowerChar = (norm s).data := by
      apply map_eq_self_of_fixed
      intro c hc
      rw [hnorm] at hc
      rcases joinTokens_mem _ c hc with ⟨u, hu, hcu⟩ | rfl
      · have hcl : c ∈ s.data.map lowerChar :=
          tokens_mem_subset (s.data.map lowerChar) u hu c hcu
        rcases List.mem_map.1 hcl with ⟨a, _, rfl⟩
        exact lowerChar_lowerChar a
      · exact lowerChar_space
    apply String.ext
    rw [hdata (norm s), hfix, hnorm]
    rw [tokens_joinTokens (tokens (s.data.map lowerChar)) hwf]
  · rw [hnorm]
    exact (joinTokens_wf _ hwf).1
  · rw [hnorm]
    exact (joinTokens_wf _ hwf).2.1
  · rw [hnorm]
    exact (joinTokens_wf _ hwf).2.2
  · intro h
    have : norm s = ⟨collapseAux false (stripChars (lowerStr s).data)⟩ := rfl
    rw [this, h]
    rfl
  · intro h
    apply String.ext
    rw [hnorm, hdata t, tokens_map_lower, tokens_map_lower, h]

theorem norm_properties_witness :
    norm (norm "  Foo   BAR ") = norm "  Foo   BAR " ∧
    norm " A  b" = norm " a  B" ∧ norm "A  b" = norm " A b " := by
  refine ⟨(norm_properties "  Foo   BAR " "").1, ?_, ?_⟩
  · exact (norm_properties " A  b" " a  B").2.2.2.2.1 (by decide)
  · exact (norm_properties "A  b" " A b ").2.2.2.2.2 (by decide)

/-! ### Claim theorems: aggregation, column resolution, estimator, URLs -/

/-- C1: for every ordered target list and any mappings and estimator, the
aggregation step emits exactly one `CareerRecord` per target, in target
order: the output has the target list's length and its `i`-th record is
built from the `i`-th target, whether or not the target matched either
mapping. -/
theorem aggregate_length_order (est : Option String → Option EducationCost)
    (ooh : Dict OccupationProfile) (wages : Dict WageStats) (T : List String) :
    (aggregate est ooh wages T).length = T.length ∧
    ∀ i : Nat, (aggregate est ooh wages T)[i]? =
      (T[i]?).map (buildOne est ooh wages) := by
  rw [aggregate_eq_map]
  constructor
  · simp
  · intro i
    rw [List.getElem?_map]

/-- C2 counterexample: the claimed two-phase fallback is refuted.  In the
column list `["occupation title", "annual wage 25", "annual 25th percentile
wage"]` a column containing "annual 25th percentile" exists, yet the code
resolves the earlier column that merely contains "25" and "annual", and
`load_oews` therefore reads 111 (not 222) as the 25th-percentile wage. -/
theorem wage_column_two_phase_counterexample :
    resolveCol "annual 25th percentile" "25" "annual"
        ["occupation title", "annual wage 25", "annual 25th percentile wage"] =
      some "annual wage 25" ∧
    pyIn "annual 25th percentile" "annual 25th percentile wage" = true ∧
    "annual wage 25" ≠ "annual 25th percentile wage" ∧
    load_oews ⟨["Occupation Title x", "Annual wage 25", "Annual 25th percentile wage"],
        [[Cell.str "Nurse", Cell.num 111, Cell.num 222]]⟩ =
      Except.ok [("nurse", ⟨some 111, none⟩)] := by
  exact ⟨by decide, by decide, by decide, by rfl⟩

/-- C2 amended: wage-column resolution is a single left-to-right scan over
the column list whose predicate is the disjunction of the two patterns; and
because "annual 25th percentile" (resp. "annual median") itself contains
both "25" and "annual" (resp. "median" and "annual"), the scan is
equivalent to taking the first column containing the substring pair.
There is no two-phase preference for the more specific pattern. -/
theorem wage_column_single_scan (cols : List String) :
    p25ColOf cols = cols.find? (fun c => pyIn "25" c && pyIn "annual" c) ∧
    medColOf cols = cols.find? (fun c => pyIn "median" c && pyIn "annual" c) := by
  constructor
  · exact resolveCol_eq_snd _ _ _ (by decide) (by decide) cols
  · exact resolveCol_eq_snd _ _ _ (by decide) (by decide) cols

theorem edu_cost_eq_spec (twoYr fourYr : Int) :
    ∀ e : Option String, edu_cost twoYr fourYr e = eduCostSpec twoYr fourYr e := by
  intro e
  cases e with
  | none => rfl
  | some s =>
    by_cases hs : s = ""
    · subst hs
      rfl
    · have hlne : ¬ lowerStr s = "" := by
        intro habs
        apply hs
        have h1 : (lowerStr s).data = [] := by rw [habs]
        simp only [lowerStr] at h1
        have h2 : s.data = [] := by
          cases hd : s.data with
          | nil => rfl
          | cons a l => rw [hd] at h1; simp at h1
        apply String.ext
        rw [h2]
      simp only [edu_cost, eduCostSpec, pyOrDefault, if_neg hs, if_neg hlne]
      by_cases h1 : pyIn "associate" (lowerStr s) = true
      · rw [if_pos h1, specRules, List.find?_cons_of_pos _ (by simp [h1])]
        simp [Int.mul_comm]
      · rw [if_neg h1, specRules]
        by_cases h2 : pyIn "bachelor" (lowerStr s) = true
        · rw [if_pos h2, List.find?_cons_of_neg _ (by simp [h1]),
            List.find?_cons_of_pos _ (by simp [h2])]
          simp [Int.mul_comm]
        · rw [if_neg h2, List.find?_cons_of_neg _ (by simp [h1]),
            List.find?_cons_of_neg _ (by simp [h2])]
          by_cases h3 : pyIn "master" (lowerStr s) = true
          · rw [if_pos h3, List.find?_cons_of_pos _ (by simp [h3])]
            simp [Int.mul_comm]
          · rw [if_neg h3, List.find?_cons_of_neg _ (by simp [h3])]
            by_cases h4 : (pyIn "doctoral" (lowerStr s) || pyIn "professional" (lowerStr s)) = true
            · rw [if_pos h4, List.find?_cons_of_pos _ (by
                simp only [List.any_cons, List.any_nil, Bool.or_false]
                exact h4)]
              simp [Int.mul_comm]
            · rw [if_neg h4, List.find?_cons_of_neg _ (by
                simp only [List.any_cons, List.any_nil, Bool.or_false]
                exact h4)]
              by_cases h5 : pyIn "postsecondary nondegree" (lowerStr s) = true
              · rw [if_pos h5, List.find?_cons_of_pos _ (by simp [h5])]
                simp [Int.mul_comm]
              · rw [if_neg h5, List.find?_cons_of_neg _ (by simp [h5])]
                by_cases h6 : (pyIn "high school" (lowerStr s) || pyIn "no formal" (lowerStr s)) = true
                · rw [if_pos h6, List.find?_cons_of_pos _ (by
                    simp only [List.any_cons, List.any_nil, Bool.or_false]
                    exact h6)]
                  simp
                · rw [if_neg h6, List.find?_cons_of_neg _ (by
                    simp only [List.any_cons, List.any_nil, Bool.or_false]
                    exact h6)]
                  simp

/-- C5 counterexample: an input containing both "bachelor" and "master"
(and also "associate") does not take the bachelor branch: the associate
rule fires first, so the claim's unconditional "any input containing both
bachelor and master returns years=4" is false. -/
theorem edu_cost_bachelor_master_counterexample :
    pyIn "bachelor" (lowerStr "Associate, Bachelor, or Master degree") = true ∧
    pyIn "master" (lowerStr "Associate, Bachelor, or Master degree") = true ∧
    edu_cost 100 1000 (some "Associate, Bachelor, or Master degree") =
      some ⟨2, 200, "Community college estimate (tuition+fees only)."⟩ ∧
    edu_cost 100 1000 (some "Associate, Bachelor, or Master degree") ≠
      some ⟨4, 4000, "Public 4-year in-state estimate (tuition+fees only)."⟩ := by
  exact ⟨by decide, by decide, by decide, by decide⟩

/-- C5 amended: the estimator equals the spec's ordered rule table under a
first-match-wins scan (same priority order, years, cost multiples and note
texts, with absent/empty input giving an absent result); and an input
containing both "bachelor" and "master" but not the earlier-priority
"associate" does return years=4 with cost 4 x four-year-rate. -/
theorem edu_cost_priority (twoYr fourYr : Int) :
    (∀ e : Option String, edu_cost twoYr fourYr e = eduCostSpec twoYr fourYr e) ∧
    (∀ s : String, pyIn "bachelor" (lowerStr s) = true →
      pyIn "master" (lowerStr s) = true →
      pyIn "associate" (lowerStr s) = false →
      edu_cost twoYr fourYr (some s) =
        some ⟨4, fourYr * 4, "Public 4-year in-state estimate (tuition+fees only)."⟩) := by
  constructor
  · exact edu_cost_eq_spec twoYr fourYr
  · intro s hb _ ha
    have hsne : ¬ lowerStr s = "" := by
      intro habs
      rw [habs] at hb
      exact absurd hb (by decide)
    have hs : ¬ s = "" := by
      intro habs
      apply hsne
      rw [habs]
      rfl
    simp only [edu_cost, pyOrDefault, if_neg hs, if_neg hsne]
    rw [if_neg (by simp [ha]), if_pos hb]

theorem edu_cost_priority_witness :
    edu_cost 100 1000 (some "Bachelor's or Master's degree") =
      some ⟨4, 4000, "Public 4-year in-state estimate (tuition+fees only)."⟩ := by
  have h := (edu_cost_priority 100 1000).2 "Bachelor's or Master's degree"
    (by decide) (by decide) (by decide)
  rw [h]
  decide

/-- C7: a target whose key appears in neither mapping yields a record with
the target as title, null summary, education and wage fields, the
synthesized query-encoded fallback search URL, and an absent education
cost — never an error. -/
theorem unmatched_target_record (twoYr fourYr : Int) (ooh : Dict OccupationProfile)
    (wages : Dict WageStats) (t : String)
    (hp : dget ooh (norm t) = none) (hw : dget wages (norm t) = none) :
    buildOne (edu_cost twoYr fourYr) ooh wages t =
      { title := t, summary := none, entry_education := none,
        ooh_url := urlBase ++ pyQuote t, starting_proxy_annual := none,
        median_annual := none, education_cost := none } := by
  simp only [buildOne, hp, hw]
  rfl

theorem unmatched_target_record_witness :
    buildOne (edu_cost 0 0) [] [] "Nonexistent Job" =
      { title := "Nonexistent Job", summary := none, entry_education := none,
        ooh_url := "https://www.bls.gov/ooh/occupation-finder.htm?search=Nonexistent%20Job",
        starting_proxy_annual := none, median_annual := none,
        education_cost := none } := by
  have h := unmatched_target_record 0 0 [] [] "Nonexistent Job" rfl rfl
  rw [h]
  rfl

theorem urlBase_append_ne_empty (x : String) : urlBase ++ x ≠ "" := by
  intro habs
  have h1 : (urlBase ++ x).data = "".data := congrArg String.data habs
  rw [String.data_append] at h1
  have h2 : urlBase.data = [] := (List.append_eq_nil.1 (by simpa using h1)).1
  exact absurd h2 (by decide)

/-- C10: the fallback search URL is substituted whenever the matched
profile's stored URL is falsy — `None` or the empty string — so no emitted
record ever carries an empty-string URL. -/
theorem fallback_url_on_falsy (est : Option String → Option EducationCost)
    (ooh : Dict OccupationProfile) (wages : Dict WageStats) (t : String) :
    (buildOne est ooh wages t).ooh_url ≠ "" ∧
    ((((dget ooh (norm t)).getD (defaultProfile t)).ooh_url = none ∨
      ((dget ooh (norm t)).getD (defaultProfile t)).ooh_url = some "") →
      (buildOne est ooh wages t).ooh_url =
        urlBase ++ pyQuote ((dget ooh (norm t)).getD (defaultProfile t)).title) := by
  have hb : (buildOne est ooh wages t).ooh_url =
      pyUrlOr ((dget ooh (norm t)).getD (defaultProfile t)).ooh_url
        (urlBase ++ pyQuote ((dget ooh (norm t)).getD (defaultProfile t)).title) := rfl
  constructor
  · rw [hb]
    rcases hu : ((dget ooh (norm t)).getD (defaultProfile t)).ooh_url with _ | u
    · exact urlBase_append_ne_empty _
    · by_cases he : u = ""
      · subst he
        simpa [pyUrlOr] using urlBase_append_ne_empty
          (pyQuote ((dget ooh (norm t)).getD (defaultProfile t)).title)
      · simp [pyUrlOr, he]
  · intro hfalsy
    rw [hb]
    rcases hfalsy with hu | hu <;> rw [hu] <;> simp [pyUrlOr]

theorem fallback_url_on_falsy_witness :
    (buildOne (edu_cost 0 0) [("x job", ⟨"X Job", none, none, some ""⟩)] [] "X Job").ooh_url =
      urlBase ++ pyQuote "X Job" ∧
    (buildOne (edu_cost 0 0) [("x job", ⟨"X Job", none, none, some ""⟩)] [] "X Job").ooh_url ≠ "" := by
  have h := fallback_url_on_falsy (edu_cost 0 0)
    [("x job", ⟨"X Job", none, none, some ""⟩)] [] "X Job"
  refine ⟨?_, h.1⟩
  have h2 := h.2 (Or.inr (by rfl))
  rw [h2]
  rfl

/-! ### Row-fold lemmas for `load_oews` -/

theorem rowStep_ok_of_not_str (cols : List String) (tc : String) (pc mc : Option String)
    (out : Dict WageStats) (row : List Cell) (h : cellIsStr (rowGet cols row tc) = false) :
    rowStep cols tc pc mc out row = Except.ok out := by
  unfold rowStep
  cases hcell : rowGet cols row tc with
  | na => rfl
  | num x => rfl
  | str s => rw [hcell] at h; simp [cellIsStr] at h

theorem rowStep_ok_of_str (cols : List String) (tc : String) (pc mc : Option String)
    (out : Dict WageStats) (row : List Cell) (s : String) (w : WageStats)
    (hcell : rowGet cols row tc = Cell.str s)
    (hw : rowWage cols pc mc row = Except.ok w) :
    rowStep cols tc pc mc out row = Except.ok (dinsert out (norm s) w) := by
  unfold rowStep
  rw [hcell, hw]
  rfl

theorem rowStep_error_of_str (cols : List String) (tc : String) (pc mc : Option String)
    (out : Dict WageStats) (row : List Cell) (s : String) (e : String)
    (hcell : rowGet cols row tc = Cell.str s)
    (hw : rowWage cols pc mc row = Except.error e) :
    rowStep cols tc pc mc out row = Except.error e := by
  unfold rowStep
  rw [hcell, hw]
  rfl

theorem foldlM_rowStep_ok (cols : List String) (tc : String) (pc mc : Option String) :
    ∀ (rows : List (List Cell)) (out : Dict WageStats),
      (∀ row ∈ rows, (rowWage cols pc mc row).isOk = true) →
      ∃ d, List.foldlM (rowStep cols tc pc mc) out rows = Except.ok d
  | [], out, _ => ⟨out, rfl⟩
  | r :: rest, out, h => by
    rw [List.foldlM_cons]
    by_cases hstr : cellIsStr (rowGet cols r tc) = true
    · cases hcell : rowGet cols r tc with
      | na => rw [hcell] at hstr; simp [cellIsStr] at hstr
      | num x => rw [hcell] at hstr; simp [cellIsStr] at hstr
      | str s =>
        cases hw : rowWage cols pc mc r with
        | error e =>
          have hr := h r (by simp)
          rw [hw] at hr
          simp [Except.isOk, Except.toBool] at hr
        | ok w =>
          rw [rowStep_ok_of_str cols tc pc mc out r s w hcell hw]
          exact foldlM_rowStep_ok cols tc pc mc rest (dinsert out (norm s) w)
            (fun row hrow => h row (List.mem_cons_of_mem r hrow))
    · rw [rowStep_ok_of_not_str cols tc pc mc out r (by simpa using hstr)]
      exact foldlM_rowStep_ok cols tc pc mc rest out
        (fun row hrow => h row (List.mem_cons_of_mem r hrow))

theorem foldlM_rowStep_vals (cols : List String) (tc : String) (pc mc : Option String)
    (P : WageStats → Prop)
    (hP : ∀ row w, rowWage cols pc mc row = Except.ok w → P w) :
    ∀ (rows : List (List Cell)) (out d : Dict WageStats),
      (∀ p ∈ out, P p.2) →
      List.foldlM (rowStep cols tc pc mc) out rows = Except.ok d →
      ∀ p ∈ d, P p.2
  | [], out, d, hout, hfold => by
    have h1 : out = d := by
      have := hfold
      simp only [List.foldlM_nil] at this
      exact Except.ok.inj this
    subst h1
    exact hout
  | r :: rest, out, d, hout, hfold => by
    rw [List.foldlM_cons] at hfold
    by_cases hstr : cellIsStr (rowGet cols r tc) = true
    · cases hcell : rowGet cols r tc with
      | na => rw [hcell] at hstr; simp [cellIsStr] at hstr
      | num x => rw [hcell] at hstr; simp [cellIsStr] at hstr
      | str s =>
        cases hw : rowWage cols pc mc r with
        | error e =>
          rw [rowStep_error_of_str cols tc pc mc out r s e hcell hw] at hfold
          have hne : (Except.error e : Except String (Dict WageStats)) = Except.ok d := hfold
          exact absurd hne (by simp)
        | ok w =>
          rw [rowStep_ok_of_str cols tc pc mc out r s w hcell hw] at hfold
          refine foldlM_rowStep_vals cols tc pc mc P hP rest
            (dinsert out (norm s) w) d ?_ hfold
          intro p hp
          rcases List.mem_append.1 hp with h1 | h2
          · exact hout p (List.mem_of_mem_filter h1)
          · rcases List.mem_singleton.1 h2 with rfl
            exact hP r w hw
    · rw [rowStep_ok_of_not_str cols tc pc mc out r (by simpa using hstr)] at hfold
      exact foldlM_rowStep_vals cols tc pc mc P hP rest out d hout hfold

theorem rowWage_eq (cols : List String) (pc mc : Option String) (row : List Cell) :
    rowWage cols pc mc row =
      match wageField cols row pc, wageField cols row mc with
      | Except.ok p, Except.ok m => Except.ok ⟨p, m⟩
      | Except.error e, _ => Except.error e
      | Except.ok _, Except.error e => Except.error e := by
  unfold rowWage
  cases hf : wageField cols row pc <;> cases hg : wageField cols row mc <;> rfl

theorem wageField_none (cols : List String) (row : List Cell) :
    wageField cols row none = Except.ok none := rfl

theorem rowWage_median_none (cols : List String) (pc : Option String) (row : List Cell)
    (w : WageStats) (h : rowWage cols pc none row = Except.ok w) : w.median = none := by
  rw [rowWage_eq] at h
  cases hf : wageField cols row pc with
  | error e =>
    rw [hf] at h
    have h' : (Except.error e : Except String WageStats) = Except.ok w := h
    exact absurd h' (by simp)
  | ok p =>
    rw [hf] at h
    have h' : Except.ok (⟨p, none⟩ : WageStats) = Except.ok w := h
    have h2 := Except.ok.inj h'
    rw [← h2]

theorem rowWage_p25_none (cols : List String) (mc : Option String) (row : List Cell)
    (w : WageStats) (h : rowWage cols none mc row = Except.ok w) : w.p25 = none := by
  rw [rowWage_eq] at h
  rw [wageField_none] at h
  cases hg : wageField cols row mc with
  | error e =>
    rw [hg] at h
    have h' : (Except.error e : Except String WageStats) = Except.ok w := h
    exact absurd h' (by simp)
  | ok m =>
    rw [hg] at h
    have h' : Except.ok (⟨none, m⟩ : WageStats) = Except.ok w := h
    have h2 := Except.ok.inj h'
    rw [← h2]

theorem wageField_isOk_of (cols : List String) (row : List Cell) (c? : Option String)
    (h : ∀ c, c? = some c → cellNotna (rowGet cols row c) = true →
      (pyFloat (rowGet cols row c)).isOk = true) :
    (wageField cols row c?).isOk = true := by
  cases c? with
  | none => rfl
  | some c =>
    simp only [wageField]
    by_cases hcond : (!(c == "") && cellNotna (rowGet cols row c)) = true
    · rw [if_pos hcond]
      have hna : cellNotna (rowGet cols row c) = true := by
        simp only [Bool.and_eq_true] at hcond
        exact hcond.2
      have hok := h c rfl hna
      cases hf : pyFloat (rowGet cols row c) with
      | error e => rw [hf] at hok; simp [Except.isOk, Except.toBool] at hok
      | ok x => rfl
    · rw [if_neg hcond]; rfl

theorem rowWage_isOk_of (cols : List String) (pc mc : Option String) (row : List Cell)
    (hp : (wageField cols row pc).isOk = true) (hm : (wageField cols row mc).isOk = true) :
    (rowWage cols pc mc row).isOk = true := by
  rw [rowWage_eq]
  cases hf : wageField cols row pc with
  | error e => rw [hf] at hp; simp [Except.isOk, Except.toBool] at hp
  | ok p =>
    cases hg : wageField cols row mc with
    | error e => rw [hg] at hm; simp [Except.isOk, Except.toBool] at hm
    | ok m => rfl

theorem resolveCol_none (p1 pa pb : String) (cols : List String)
    (h : ∀ c ∈ cols, ¬ (pyIn p1 c = true ∨ (pyIn pa c = true ∧ pyIn pb c = true))) :
    resolveCol p1 pa pb cols = none := by
  unfold resolveCol
  rw [List.find?_eq_none]
  intro x hx habs
  simp only [Bool.or_eq_true, Bool.and_eq_true] at habs
  exact h x hx habs

theorem load_oews_eq_fold (tbl : Table)
    (hne : (tbl.cols.map (fun x => norm x)).isEmpty = false) :
    load_oews tbl = tbl.rows.foldlM
      (rowStep (tbl.cols.map (fun x => norm x))
        (titleColOf (tbl.cols.map (fun x => norm x)))
        (p25ColOf (tbl.cols.map (fun x => norm x)))
        (medColOf (tbl.cols.map (fun x => norm x)))) [] := by
  unfold load_oews
  rw [if_neg (by simp [hne])]

theorem load_oews_ok_cols_ne (tbl : Table) (d : Dict WageStats)
    (h : load_oews tbl = Except.ok d) :
    (tbl.cols.map (fun x => norm x)).isEmpty = false := by
  by_cases he : (tbl.cols.map (fun x => norm x)).isEmpty = true
  · unfold load_oews at h
    rw [if_pos he] at h
    exact absurd h (by simp)
  · simpa using he

/-- C4 counterexample: a processed row (string title) whose present,
non-missing wage cell holds the non-numeric text `"**"` makes the wage
field computation raise `ValueError`, aborting `load_oews` — the fields do
not degrade to null for arbitrary cell contents. -/
theorem wage_cell_valueerror_counterexample :
    load_oews ⟨["Occupation Title", "Annual 25th percentile wage"],
        [[Cell.str "Nurses", Cell.str "**"]]⟩ = Except.error "ValueError" := by rfl

/-- C4 amended: computing the two `WageStats` fields of a processed row
never raises provided every present, non-missing cell in a resolved wage
column converts to a float (is a number or numeric text); and a
missing/blank cell always yields null for its field.  (A present
non-numeric text cell raises `ValueError`, as the counterexample shows.) -/
theorem oews_ok_of_numeric_cells :
    (∀ tbl : Table, tbl.cols ≠ [] →
      (∀ row ∈ tbl.rows, ∀ c : String,
        (p25ColOf (tbl.cols.map (fun x => norm x)) = some c ∨
         medColOf (tbl.cols.map (fun x => norm x)) = some c) →
        cellNotna (rowGet (tbl.cols.map (fun x => norm x)) row c) = true →
        (pyFloat (rowGet (tbl.cols.map (fun x => norm x)) row c)).isOk = true) →
      ∃ d, load_oews tbl = Except.ok d) ∧
    (∀ (cols : List String) (row : List Cell) (c : String),
      cellNotna (rowGet cols row c) = false →
      wageField cols row (some c) = Except.ok none) := by
  constructor
  · intro tbl hcols hcells
    have hne : (tbl.cols.map (fun x => norm x)).isEmpty = false := by
      cases hc : tbl.cols with
      | nil => exact absurd hc hcols
      | cons a l => simp [hc]
    obtain ⟨d, hd⟩ := foldlM_rowStep_ok (tbl.cols.map (fun x => norm x))
      (titleColOf (tbl.cols.map (fun x => norm x)))
      (p25ColOf (tbl.cols.map (fun x => norm x)))
      (medColOf (tbl.cols.map (fun x => norm x))) tbl.rows []
      (fun row hrow => rowWage_isOk_of _ _ _ row
        (wageField_isOk_of _ row _ (fun c hc hna => hcells row hrow c (Or.inl hc) hna))
        (wageField_isOk_of _ row _ (fun c hc hna => hcells row hrow c (Or.inr hc) hna)))
    exact ⟨d, (load_oews_eq_fold tbl hne).trans hd⟩
  · intro cols row c h
    simp only [wageField]
    rw [if_neg (by simp [h])]

theorem oews_ok_of_numeric_cells_witness :
    (∃ d, load_oews ⟨["Occupation Title", "Annual 25th percentile wage"],
      [[Cell.str "Nurse", Cell.num 52000]]⟩ = Except.ok d) ∧
    wageField ["x"] [Cell.na] (some "x") = Except.ok none := by
  constructor
  · apply oews_ok_of_numeric_cells.1
      ⟨["Occupation Title", "Annual 25th percentile wage"],
        [[Cell.str "Nurse", Cell.num 52000]]⟩ (by simp)
    intro row hrow c hc hna
    rcases List.mem_singleton.1 hrow with rfl
    rcases hc with h1 | h2
    · have hpc : p25ColOf ((["Occupation Title", "Annual 25th percentile wage"] :
          List String).map (fun x => norm x)) = some "annual 25th percentile wage" := by
        decide
      rw [hpc] at h1
      have h1' := Option.some.inj h1
      subst h1'
      decide
    · have hmc : medColOf ((["Occupation Title", "Annual 25th percentile wage"] :
          List String).map (fun x => norm x)) = none := by decide
      rw [hmc] at h2
      exact absurd h2 (by simp)
  · exact oews_ok_of_numeric_cells.2 ["x"] [Cell.na] "x" (by rfl)

/-- C8 counterexample: the claim's "no error is raised" is false.  This
table has no column matching either median pattern (the code's resolver
returns `none`), satisfying the claim's premise, yet `load_oews` raises
`ValueError` — through the other, resolved wage column, whose `"#"` cell
fails `float()`. -/
theorem missing_median_column_raises_counterexample :
    medColOf ((["Occupation Title", "Annual 25th percentile wage"] : List String).map
      (fun x => norm x)) = none ∧
    load_oews ⟨["Occupation Title", "Annual 25th percentile wage"],
        [[Cell.str "Electricians", Cell.str "#"]]⟩ = Except.error "ValueError" :=
  ⟨by decide, by rfl⟩

/-- C8 amended: when no column name matches either pattern of the median
(respectively 25th-percentile) fallback chain, `median_annual`
(respectively `p25`) is null in every record `load_oews` produces; and the
unresolvable column itself never causes an error — when both wage columns
are unresolvable (and the table has at least one column, so the positional
title fallback exists), `load_oews` always succeeds with every record
all-null.  (`load_oews` can still raise for an unrelated reason: a
non-numeric cell in the other, resolved wage column, as the counterexample
shows.) -/
theorem missing_wage_columns_null :
    (∀ (tbl : Table) (d : Dict WageStats),
      (∀ c ∈ tbl.cols.map (fun x => norm x),
        ¬ (pyIn "annual median" c = true ∨ (pyIn "median" c = true ∧ pyIn "annual" c = true))) →
      load_oews tbl = Except.ok d → ∀ p ∈ d, p.2.median = none) ∧
    (∀ (tbl : Table) (d : Dict WageStats),
      (∀ c ∈ tbl.cols.map (fun x => norm x),
        ¬ (pyIn "annual 25th percentile" c = true ∨ (pyIn "25" c = true ∧ pyIn "annual" c = true))) →
      load_oews tbl = Except.ok d → ∀ p ∈ d, p.2.p25 = none) ∧
    (∀ tbl : Table, tbl.cols ≠ [] →
      (∀ c ∈ tbl.cols.map (fun x => norm x),
        ¬ (pyIn "annual median" c = true ∨ (pyIn "median" c = true ∧ pyIn "annual" c = true))) →
      (∀ c ∈ tbl.cols.map (fun x => norm x),
        ¬ (pyIn "annual 25th percentile" c = true ∨ (pyIn "25" c = true ∧ pyIn "annual" c = true))) →
      ∃ d, load_oews tbl = Except.ok d ∧ ∀ p ∈ d, p.2 = ⟨none, none⟩) := by
  refine ⟨?_, ?_, ?_⟩
  · intro tbl d hno hld
    have hmc : medColOf (tbl.cols.map (fun x => norm x)) = none :=
      resolveCol_none _ _ _ _ hno
    have hne := load_oews_ok_cols_ne tbl d hld
    have hfold := (load_oews_eq_fold tbl hne).symm.trans hld
    refine foldlM_rowStep_vals _ _ _ _ (fun w => w.median = none) ?_ tbl.rows [] d
      (by simp) hfold
    intro row w hw
    rw [hmc] at hw
    exact rowWage_median_none _ _ row w hw
  · intro tbl d hno hld
    have hpc : p25ColOf (tbl.cols.map (fun x => norm x)) = none :=
      resolveCol_none _ _ _ _ hno
    have hne := load_oews_ok_cols_ne tbl d hld
    have hfold := (load_oews_eq_fold tbl hne).symm.trans hld
    refine foldlM_rowStep_vals _ _ _ _ (fun w => w.p25 = none) ?_ tbl.rows [] d
      (by simp) hfold
    intro row w hw
    rw [hpc] at hw
    exact rowWage_p25_none _ _ row w hw
  · intro tbl hcols hnom hnop
    have hne : (tbl.cols.map (fun x => norm x)).isEmpty = false := by
      cases hc : tbl.cols with
      | nil => exact absurd hc hcols
      | cons a l => simp [hc]
    have hmc : medColOf (tbl.cols.map (fun x => norm x)) = none :=
      resolveCol_none _ _ _ _ hnom
    have hpc : p25ColOf (tbl.cols.map (fun x => norm x)) = none :=
      resolveCol_none _ _ _ _ hnop
    obtain ⟨d, hd⟩ := foldlM_rowStep_ok (tbl.cols.map (fun x => norm x))
      (titleColOf (tbl.cols.map (fun x => norm x)))
      (p25ColOf (tbl.cols.map (fun x => norm x)))
      (medColOf (tbl.cols.map (fun x => norm x))) tbl.rows []
      (fun row _ => by rw [hpc, hmc]; rfl)
    refine ⟨d, (load_oews_eq_fold tbl hne).trans hd, ?_⟩
    refine foldlM_rowStep_vals _ _ _ _ (fun w => w = ⟨none, none⟩) ?_ tbl.rows [] d
      (by simp) hd
    intro row w hw
    rw [hpc, hmc] at hw
    have h' : Except.ok (⟨none, none⟩ : WageStats) = Except.ok w := hw
    exact (Except.ok.inj h').symm

theorem missing_wage_columns_null_witness :
    ∃ d, load_oews ⟨["Occupation Title", "Hourly Wage"],
      [[Cell.str "Nurse", Cell.num 10]]⟩ = Except.ok d ∧
      ∀ p ∈ d, p.2 = ⟨none, none⟩ :=
  missing_wage_columns_null.2.2
    ⟨["Occupation Title", "Hourly Wage"], [[Cell.str "Nurse", Cell.num 10]]⟩
    (by simp) (by decide) (by decide)

theorem foldlM_rowStep_key_src (cols : List String) (tc : String) (pc mc : Option String) :
    ∀ (rows : List (List Cell)) (out d : Dict WageStats) (k : String),
      List.foldlM (rowStep cols tc pc mc) out rows = Except.ok d →
      dget d k ≠ none →
      dget out k ≠ none ∨ ∃ row ∈ rows, ∃ s : String,
        rowGet cols row tc = Cell.str s ∧ norm s = k
  | [], out, d, k, hfold, hd => by
    have h1 : out = d := by
      simp only [List.foldlM_nil] at hfold
      exact Except.ok.inj hfold
    subst h1
    exact Or.inl hd
  | r :: rest, out, d, k, hfold, hd => by
    rw [List.foldlM_cons] at hfold
    by_cases hstr : cellIsStr (rowGet cols r tc) = true
    · cases hcell : rowGet cols r tc with
      | na => rw [hcell] at hstr; simp [cellIsStr] at hstr
      | num x => rw [hcell] at hstr; simp [cellIsStr] at hstr
      | str s =>
        cases hw : rowWage cols pc mc r with
        | error e =>
          rw [rowStep_error_of_str cols tc pc mc out r s e hcell hw] at hfold
          have h' : (Except.error e : Except String (Dict WageStats)) = Except.ok d := hfold
          exact absurd h' (by simp)
        | ok w =>
          rw [rowStep_ok_of_str cols tc pc mc out r s w hcell hw] at hfold
          rcases foldlM_rowStep_key_src cols tc pc mc rest (dinsert out (norm s) w) d k
              hfold hd with h1 | ⟨row, hrow, s', hcell', hk⟩
          · by_cases hkk : k = norm s
            · exact Or.inr ⟨r, by simp, s, hcell, hkk.symm⟩
            · rw [dget_dinsert, if_neg hkk] at h1
              exact Or.inl h1
          · exact Or.inr ⟨row, List.mem_cons_of_mem r hrow, s', hcell', hk⟩
    · rw [rowStep_ok_of_not_str cols tc pc mc out r (by simpa using hstr)] at hfold
      rcases foldlM_rowStep_key_src cols tc pc mc rest out d k hfold hd with
        h1 | ⟨row, hrow, s', hcell', hk⟩
      · exact Or.inl h1
      · exact Or.inr ⟨row, List.mem_cons_of_mem r hrow, s', hcell', hk⟩

theorem foldlM_rowStep_filter (cols : List String) (tc : String) (pc mc : Option String) :
    ∀ (rows : List (List Cell)) (out : Dict WageStats),
      List.foldlM (rowStep cols tc pc mc) out rows =
      List.foldlM (rowStep cols tc pc mc) out
        (rows.filter (fun row => cellIsStr (rowGet cols row tc)))
  | [], _ => rfl
  | r :: rest, out => by
    by_cases hstr : cellIsStr (rowGet cols r tc) = true
    · rw [show (r :: rest).filter (fun row => cellIsStr (rowGet cols row tc)) =
          r :: rest.filter (fun row => cellIsStr (rowGet cols row tc)) from by
        simp [List.filter_cons, hstr]]
      rw [List.foldlM_cons, List.foldlM_cons]
      cases hs : rowStep cols tc pc mc out r with
      | error e => rfl
      | ok out' => exact foldlM_rowStep_filter cols tc pc mc rest out'
    · have hstr' : cellIsStr (rowGet cols r tc) = false := by simpa using hstr
      rw [show (r :: rest).filter (fun row => cellIsStr (rowGet cols row tc)) =
          rest.filter (fun row => cellIsStr (rowGet cols row tc)) from by
        simp [List.filter_cons, hstr']]
      rw [List.foldlM_cons, rowStep_ok_of_not_str cols tc pc mc out r hstr']
      exact foldlM_rowStep_filter cols tc pc mc rest out

/-- C3 counterexample: a row whose title cell is the empty string is NOT
skipped — it is a string, so the row produces an entry keyed by `""`. -/
theorem oews_empty_title_counterexample :
    load_oews ⟨["Occupation Title", "Annual median wage"],
        [[Cell.str "", Cell.num 50]]⟩ =
      Except.ok [("", ⟨none, some 50⟩)] ∧
    dget [("", (⟨none, some 50⟩ : WageStats))] "" = some ⟨none, some 50⟩ :=
  ⟨rfl, rfl⟩

/-- C3 amended: `load_oews` skips exactly the rows whose title cell is not
a string (dropping them does not change the result), and every key of the
output arises from a row whose title cell is a string — possibly the empty
or whitespace-only string, which is processed rather than skipped. -/
theorem oews_rows_string_titles :
    (∀ (tbl : Table) (d : Dict WageStats) (k : String),
      load_oews tbl = Except.ok d → dget d k ≠ none →
      ∃ row ∈ tbl.rows, ∃ s : String,
        rowGet (tbl.cols.map (fun x => norm x)) row
          (titleColOf (tbl.cols.map (fun x => norm x))) = Cell.str s ∧ norm s = k) ∧
    (∀ (cols : List String) (rows : List (List Cell)),
      load_oews ⟨cols, rows⟩ =
        load_oews ⟨cols, rows.filter (fun row =>
          cellIsStr (rowGet (cols.map (fun x => norm x)) row
            (titleColOf (cols.map (fun x => norm x)))))⟩) := by
  constructor
  · intro tbl d k hld hk
    have hne := load_oews_ok_cols_ne tbl d hld
    have hfold := (load_oews_eq_fold tbl hne).symm.trans hld
    rcases foldlM_rowStep_key_src _ _ _ _ tbl.rows [] d k hfold hk with h1 | h2
    · exact absurd rfl h1
    · exact h2
  · intro cols rows
    dsimp only [load_oews]
    by_cases he : (cols.map (fun x => norm x)).isEmpty = true
    · rw [if_pos he, if_pos he]
    · rw [if_neg he, if_neg he]
      exact foldlM_rowStep_filter _ _ _ _ rows []

theorem oews_rows_string_titles_witness :
    ∃ row ∈ ([[Cell.str "", Cell.num 50]] : List (List Cell)), ∃ s : String,
      rowGet ((["Occupation Title", "Annual median wage"] : List String).map
          (fun x => norm x)) row
        (titleColOf ((["Occupation Title", "Annual median wage"] : List String).map
          (fun x => norm x))) = Cell.str s ∧ norm s = "" :=
  oews_rows_string_titles.1
    ⟨["Occupation Title", "Annual median wage"], [[Cell.str "", Cell.num 50]]⟩
    [("", ⟨none, some 50⟩)] "" rfl (by decide)

/-! ### Last-write-wins on key collisions -/

theorem oohStep_skip (out : Dict OccupationProfile) (o : OohEntry)
    (h : oohTitle o = "") : oohStep out o = out := by
  unfold oohStep
  rw [if_pos h]

theorem oohStep_insert (out : Dict OccupationProfile) (o : OohEntry)
    (h : ¬ oohTitle o = "") :
    oohStep out o = dinsert out (norm (oohTitle o)) (mkProfile o) := by
  unfold oohStep
  rw [if_neg h]

theorem parse_foldl_last :
    ∀ (occs : List OohEntry) (d0 : Dict OccupationProfile) (k : String),
      (((occs.filter (fun o => !(oohTitle o == ""))).filter
          (fun o => norm (oohTitle o) == k)) = [] →
        dget (occs.foldl oohStep d0) k = dget d0 k ∧
        countKey (occs.foldl oohStep d0) k = countKey d0 k) ∧
      (∀ e, ((occs.filter (fun o => !(oohTitle o == ""))).filter
          (fun o => norm (oohTitle o) == k)).getLast? = some e →
        dget (occs.foldl oohStep d0) k = some (mkProfile e) ∧
        countKey (occs.foldl oohStep d0) k = 1)
  | [], d0, k => by
    constructor
    · intro _
      exact ⟨rfl, rfl⟩
    · intro e he
      simp at he
  | o :: rest, d0, k => by
    have ih := parse_foldl_last rest
    rw [List.foldl_cons]
    by_cases ht : oohTitle o = ""
    · rw [oohStep_skip d0 o ht]
      rw [show (o :: rest).filter (fun o => !(oohTitle o == "")) =
          rest.filter (fun o => !(oohTitle o == "")) from by
        simp [List.filter_cons, ht]]
      exact ih d0 k
    · rw [oohStep_insert d0 o ht]
      rw [show (o :: rest).filter (fun o => !(oohTitle o == "")) =
          o :: rest.filter (fun o => !(oohTitle o == "")) from by
        simp [List.filter_cons, ht]]
      by_cases hk : norm (oohTitle o) = k
      · rw [show (o :: rest.filter (fun o => !(oohTitle o == ""))).filter
            (fun o => norm (oohTitle o) == k) =
            o :: (rest.filter (fun o => !(oohTitle o == ""))).filter
              (fun o => norm (oohTitle o) == k) from by
          simp [List.filter_cons, hk]]
        constructor
        · intro habs
          exact absurd habs (by simp)
        · intro e he
          rcases hms : (rest.filter (fun o => !(oohTitle o == ""))).filter
              (fun o => norm (oohTitle o) == k) with _ | ⟨m1, ms'⟩
          · rw [hms] at he
            have h2 : some o = some e := he
            have he' : o = e := Option.some.inj h2
            have h1 := (ih (dinsert d0 (norm (oohTitle o)) (mkProfile o)) k).1 hms
            refine ⟨?_, ?_⟩
            · rw [h1.1, dget_dinsert, if_pos hk.symm, ← he']
            · rw [h1.2, countKey_dinsert, if_pos hk.symm]
          · rw [hms] at he
            rw [List.getLast?_cons_cons] at he
            exact (ih (dinsert d0 (norm (oohTitle o)) (mkProfile o)) k).2 e
              (by rw [hms]; exact he)
      · rw [show (o :: rest.filter (fun o => !(oohTitle o == ""))).filter
            (fun o => norm (oohTitle o) == k) =
            (rest.filter (fun o => !(oohTitle o == ""))).filter
              (fun o => norm (oohTitle o) == k) from by
          simp [List.filter_cons, hk]]
        constructor
        · intro hnil
          have h1 := (ih (dinsert d0 (norm (oohTitle o)) (mkProfile o)) k).1 hnil
          refine ⟨?_, ?_⟩
          · rw [h1.1, dget_dinsert, if_neg (fun hh => hk hh.symm)]
          · rw [h1.2, countKey_dinsert, if_neg (fun hh => hk hh.symm)]
        · intro e he
          exact (ih (dinsert d0 (norm (oohTitle o)) (mkProfile o)) k).2 e he

theorem oews_foldl_last (cols : List String) (tc : String) (pc mc : Option String) :
    ∀ (rows : List (List Cell)) (out d : Dict WageStats) (k : String),
      List.foldlM (rowStep cols tc pc mc) out rows = Except.ok d →
      (((rows.filter (fun r => cellIsStr (rowGet cols r tc))).filter
          (fun r => norm (cellStrD (rowGet cols r tc)) == k)) = [] →
        dget d k = dget out k ∧ countKey d k = countKey out k) ∧
      (∀ row, ((rows.filter (fun r => cellIsStr (rowGet cols r tc))).filter
          (fun r => norm (cellStrD (rowGet cols r tc)) == k)).getLast? = some row →
        ∃ w, rowWage cols pc mc row = Except.ok w ∧
          dget d k = some w ∧ countKey d k = 1)
  | [], out, d, k, hfold => by
    have h1 : out = d := by
      simp only [List.foldlM_nil] at hfold
      exact Except.ok.inj hfold
    subst h1
    constructor
    · intro _
      exact ⟨rfl, rfl⟩
    · intro row hrow
      simp at hrow
  | r :: rest, out, d, k, hfold => by
    rw [List.foldlM_cons] at hfold
    by_cases hstr : cellIsStr (rowGet cols r tc) = true
    · cases hcell : rowGet cols r tc with
      | na => rw [hcell] at hstr; simp [cellIsStr] at hstr
      | num x => rw [hcell] at hstr; simp [cellIsStr] at hstr
      | str s =>
        cases hw : rowWage cols pc mc r with
        | error e =>
          rw [rowStep_error_of_str cols tc pc mc out r s e hcell hw] at hfold
          have h' : (Except.error e : Except String (Dict WageStats)) = Except.ok d := hfold
          exact absurd h' (by simp)
        | ok w =>
          rw [rowStep_ok_of_str cols tc pc mc out r s w hcell hw] at hfold
          have ih := oews_foldl_last cols tc pc mc rest
            (dinsert out (norm s) w) d k hfold
          rw [show (r :: rest).filter (fun r => cellIsStr (rowGet cols r tc)) =
              r :: rest.filter (fun r => cellIsStr (rowGet cols r tc)) from by
            simp [List.filter_cons, hstr]]
          by_cases hk : norm (cellStrD (rowGet cols r tc)) = k
          · rw [show (r :: rest.filter (fun r => cellIsStr (rowGet cols r tc))).filter
                (fun r => norm (cellStrD (rowGet cols r tc)) == k) =
                r :: (rest.filter (fun r => cellIsStr (rowGet cols r tc))).filter
                  (fun r => norm (cellStrD (rowGet cols r tc)) == k) from by
              simp [List.filter_cons, hk]]
            have hks : norm s = k := by
              rw [hcell] at hk
              exact hk
            constructor
            · intro habs
              exact absurd habs (by simp)
            · intro row hrow
              rcases hms : (rest.filter (fun r => cellIsStr (rowGet cols r tc))).filter
                  (fun r => norm (cellStrD (rowGet cols r tc)) == k) with _ | ⟨m1, ms'⟩
              · rw [hms] at hrow
                have h2 : some r = some row := hrow
                have hrr : row = r := (Option.some.inj h2).symm
                subst hrr
                have h1 := ih.1 hms
                refine ⟨w, hw, ?_, ?_⟩
                · rw [h1.1, dget_dinsert, hks, if_pos rfl]
                · rw [h1.2, countKey_dinsert, hks, if_pos rfl]
              · rw [hms] at hrow
                rw [List.getLast?_cons_cons] at hrow
                exact ih.2 row (by rw [hms]; exact hrow)
          · rw [show (r :: rest.filter (fun r => cellIsStr (rowGet cols r tc))).filter
                (fun r => norm (cellStrD (rowGet cols r tc)) == k) =
                (rest.filter (fun r => cellIsStr (rowGet cols r tc))).filter
                  (fun r => norm (cellStrD (rowGet cols r tc)) == k) from by
              simp [List.filter_cons, hk]]
            have hks : ¬ norm s = k := by
              rw [hcell] at hk
              exact hk
            constructor
            · intro hnil
              have h1 := ih.1 hnil
              refine ⟨?_, ?_⟩
              · rw [h1.1, dget_dinsert, if_neg (fun hh => hks hh.symm)]
              · rw [h1.2, countKey_dinsert, if_neg (fun hh => hks hh.symm)]
            · intro row hrow
              exact ih.2 row hrow
    · have hstr' : cellIsStr (rowGet cols r tc) = false := by simpa using hstr
      rw [rowStep_ok_of_not_str cols tc pc mc out r hstr'] at hfold
      have ih := oews_foldl_last cols tc pc mc rest out d k hfold
      rw [show (r :: rest).filter (fun r => cellIsStr (rowGet cols r tc)) =
          rest.filter (fun r => cellIsStr (rowGet cols r tc)) from by
        simp [List.filter_cons, hstr']]
      exact ih

/-- C9: in both extractors, when several entries normalize to the same key
the mapping holds exactly one record for that key — the one built from the
last-processed entry — and the collision is handled without error. -/
theorem last_write_wins :
    (∀ (occs : List OohEntry) (k : String) (e : OohEntry),
      ((occs.filter (fun o => !(oohTitle o == ""))).filter
        (fun o => norm (oohTitle o) == k)).getLast? = some e →
      countKey (parse_ooh occs) k = 1 ∧
      dget (parse_ooh occs) k = some (mkProfile e)) ∧
    (∀ (tbl : Table) (d : Dict WageStats) (k : String) (row : List Cell),
      load_oews tbl = Except.ok d →
      ((tbl.rows.filter (fun r => cellIsStr (rowGet (tbl.cols.map (fun x => norm x)) r
          (titleColOf (tbl.cols.map (fun x => norm x)))))).filter
        (fun r => norm (cellStrD (rowGet (tbl.cols.map (fun x => norm x)) r
          (titleColOf (tbl.cols.map (fun x => norm x))))) == k)).getLast? = some row →
      ∃ w, rowWage (tbl.cols.map (fun x => norm x))
          (p25ColOf (tbl.cols.map (fun x => norm x)))
          (medColOf (tbl.cols.map (fun x => norm x))) row = Except.ok w ∧
        countKey d k = 1 ∧ dget d k = some w) := by
  constructor
  · intro occs k e he
    have h := (parse_foldl_last occs [] k).2 e he
    exact ⟨h.2, h.1⟩
  · intro tbl d k row hld hlast
    have hne := load_oews_ok_cols_ne tbl d hld
    have hfold := (load_oews_eq_fold tbl hne).symm.trans hld
    obtain ⟨w, hw, hdg, hck⟩ := (oews_foldl_last (tbl.cols.map (fun x => norm x))
      (titleColOf (tbl.cols.map (fun x => norm x)))
      (p25ColOf (tbl.cols.map (fun x => norm x)))
      (medColOf (tbl.cols.map (fun x => norm x)))
      tbl.rows [] d k hfold).2 row hlast
    exact ⟨w, hw, hck, hdg⟩

theorem last_write_wins_witness :
    (countKey (parse_ooh [⟨some "Nurse", none, none, none, none⟩,
        ⟨some " NURSE ", some "S", none, none, some "u"⟩]) "nurse" = 1 ∧
      dget (parse_ooh [⟨some "Nurse", none, none, none, none⟩,
        ⟨some " NURSE ", some "S", none, none, some "u"⟩]) "nurse" =
        some (mkProfile ⟨some " NURSE ", some "S", none, none, some "u"⟩)) ∧
    (∃ w, rowWage ((["Occupation Title", "Annual median wage"] : List String).map
          (fun x => norm x))
        (p25ColOf ((["Occupation Title", "Annual median wage"] : List String).map
          (fun x => norm x)))
        (medColOf ((["Occupation Title", "Annual median wage"] : List String).map
          (fun x => norm x))) [Cell.str "NURSE", Cell.num 60] = Except.ok w ∧
      countKey [("nurse", (⟨none, some 60⟩ : WageStats))] "nurse" = 1 ∧
      dget [("nurse", (⟨none, some 60⟩ : WageStats))] "nurse" = some w) := by
  constructor
  · exact last_write_wins.1 [⟨some "Nurse", none, none, none, none⟩,
      ⟨some " NURSE ", some "S", none, none, some "u"⟩] "nurse"
      ⟨some " NURSE ", some "S", none, none, some "u"⟩ (by decide)
  · exact last_write_wins.2
      ⟨["Occupation Title", "Annual median wage"],
        [[Cell.str "Nurse", Cell.num 50], [Cell.str "NURSE", Cell.num 60]]⟩
      [("nurse", ⟨none, some 60⟩)] "nurse" [Cell.str "NURSE", Cell.num 60]
      (by rfl) (by decide)
